import Mathlib

/-!
Verification development for the wasm-isolate tool (Rust sources in
src/main.rs, src/uses.rs, src/relocation.rs, src/reencoder.rs).

The development shallowly embeds the program:

* Rust `Vec<u32>` becomes `List Nat`; `Vec::sort` followed by `Vec::dedup`
  (which removes only adjacent duplicates) becomes `sortDedup`, implemented
  as sorting (insertion sort yields the same ascending result as Rust's
  stable sort on integers) followed by removal of adjacent duplicates.
* Rust panics (`todo!()`, out-of-bounds indexing, `expect`) become `none` /
  `Except.error` values; `Abort.unimplemented` stands for `todo!()` and
  `Abort.outOfBounds` for an index-out-of-bounds or `expect` panic.
* The `while` worklist loop of `main` becomes the fuel-indexed function
  `runWorklist`; `none` means the fuel ran out, `some r` means the loop
  finished (either normally or by panicking).
* The byte-level wasm decoder and encoder are external collaborators: the
  input module is modelled as the list of already-decoded `Payload` events
  that `wasmparser` would yield, and raw byte ranges are opaque `List Nat`
  values.  `RoundtripReencoder`'s type and constant-expression methods are
  the identity on the decoded representation, which is exactly what the
  round-tripping reencoder computes.

Definitions come first, then all theorems.
-/

namespace WasmIsolate

/-! ### List utilities mirroring `Vec::sort` + `Vec::dedup` -/

/-- Removal of adjacent duplicates, exactly Rust's `Vec::dedup`. -/
def dedupAdj : List Nat → List Nat
  | [] => []
  | [a] => [a]
  | a :: b :: rest => if a = b then dedupAdj (b :: rest) else a :: dedupAdj (b :: rest)

/-- `vec.sort(); vec.dedup();` on a `Vec<u32>`: ascending order, no duplicates. -/
def sortDedup (l : List Nat) : List Nat := dedupAdj (l.insertionSort (· ≤ ·))

/-! ### The `Uses` structure (src/main.rs lines 607-703, src/uses.rs) -/

/-- Eight per-index-space lists of live indices (src/main.rs lines 607-617). -/
structure Uses where
  live_types : List Nat
  live_funcs : List Nat
  live_tables : List Nat
  live_globals : List Nat
  live_memories : List Nat
  live_datas : List Nat
  live_elems : List Nat
  live_tags : List Nat
deriving DecidableEq

/-- `Uses::default()`: all eight lists empty. -/
def Uses.empty : Uses := ⟨[], [], [], [], [], [], [], []⟩

instance : Inhabited Uses := ⟨Uses.empty⟩

def Uses.single_type (idx : Nat) : Uses := { Uses.empty with live_types := [idx] }

def Uses.single_func (idx : Nat) : Uses := { Uses.empty with live_funcs := [idx] }

def Uses.single_table (idx : Nat) : Uses := { Uses.empty with live_tables := [idx] }

def Uses.single_global (idx : Nat) : Uses := { Uses.empty with live_globals := [idx] }

def Uses.single_memory (idx : Nat) : Uses := { Uses.empty with live_memories := [idx] }

def Uses.single_data (idx : Nat) : Uses := { Uses.empty with live_datas := [idx] }

def Uses.single_elem (idx : Nat) : Uses := { Uses.empty with live_elems := [idx] }

def Uses.single_tag (idx : Nat) : Uses := { Uses.empty with live_tags := [idx] }

/-- `Uses::append_and_dedup`: append, sort ascending, drop adjacent duplicates. -/
def Uses.append_and_dedup (vec other : List Nat) : List Nat := sortDedup (vec ++ other)

/-- `Uses::merge` (src/main.rs lines 687-696), as a pure function. -/
def Uses.merge (s other : Uses) : Uses where
  live_types := Uses.append_and_dedup s.live_types other.live_types
  live_funcs := Uses.append_and_dedup s.live_funcs other.live_funcs
  live_tables := Uses.append_and_dedup s.live_tables other.live_tables
  live_globals := Uses.append_and_dedup s.live_globals other.live_globals
  live_memories := Uses.append_and_dedup s.live_memories other.live_memories
  live_datas := Uses.append_and_dedup s.live_datas other.live_datas
  live_elems := Uses.append_and_dedup s.live_elems other.live_elems
  live_tags := Uses.append_and_dedup s.live_tags other.live_tags

/-- `Uses::all`: fold `merge` over a list of `Uses`. -/
def Uses.all (useses : List Uses) : Uses :=
  useses.foldl Uses.merge Uses.empty

/-! ### wasmparser types, as far as the program inspects them

Fields the program never reads (limits of tables and memories, mutability
bits it never branches on, byte offsets inside `MemArg`) are omitted: they
play no role in any code path of the repository. -/

/-- `wasmparser::UnpackedIndex`: a concrete heap-type index. -/
inductive UnpackedIndex
  | Module (idx : Nat)
  | RecGroup (idx : Nat)
  | Id (idx : Nat)
deriving DecidableEq

/-- `wasmparser::HeapType`; the program only distinguishes abstract heap
types (all inert) from concrete ones. -/
inductive HeapType
  | Abstract
  | Concrete (idx : UnpackedIndex)
deriving DecidableEq

/-- `wasmparser::RefType`; the program only ever calls `.heap_type()`. -/
structure RefType where
  heap_type : HeapType
deriving DecidableEq

/-- `wasmparser::ValType`. -/
inductive ValType
  | I32
  | I64
  | F32
  | F64
  | V128
  | Ref (ref_type : RefType)
deriving DecidableEq

/-- `wasmparser::StorageType`. -/
inductive StorageType
  | I8
  | I16
  | Val (val_type : ValType)
deriving DecidableEq

/-- `wasmparser::FieldType`; the program reads only `element_type`. -/
structure FieldType where
  element_type : StorageType
deriving DecidableEq

/-- `wasmparser::FuncType`, exposing `params()` and `results()`. -/
structure FuncType where
  params : List ValType
  results : List ValType
deriving DecidableEq

/-- `wasmparser::ArrayType(pub FieldType)`; `ty.0` is `fieldType`. -/
structure ArrayType where
  fieldType : FieldType
deriving DecidableEq

/-- `wasmparser::StructType`. -/
structure StructType where
  fields : List FieldType
deriving DecidableEq

/-- `wasmparser::CompositeInnerType`.  `Cont` carries a continuation type
the program immediately `todo!()`s on, so its payload is irrelevant. -/
inductive CompositeInnerType
  | Func (func_type : FuncType)
  | Array (array_type : ArrayType)
  | Struct (struct_type : StructType)
  | Cont
deriving DecidableEq

/-- `wasmparser::TableType`; the program reads only `element_type`. -/
structure TableType where
  element_type : RefType
deriving DecidableEq

/-- `wasmparser::GlobalType`; the program reads only `content_type`. -/
structure GlobalType where
  content_type : ValType
deriving DecidableEq

/-- `wasmparser::MemoryType`; the program never inspects it. -/
structure MemoryType where
  shared : Bool
deriving DecidableEq

/-- `wasmparser::TagType`; `func_type_idx` is read by `get_tagtype_uses`. -/
structure TagType where
  func_type_idx : Nat
deriving DecidableEq

/-- `wasmparser::BlockType`. -/
inductive BlockType
  | Empty
  | Type (val_type : ValType)
  | FuncType (ty : Nat)
deriving DecidableEq

/-- `wasmparser::MemArg`; the program reads only `memory`. -/
structure MemArg where
  memory : Nat
deriving DecidableEq

/-- `wasmparser::Catch`; the program reads only the `tag` payloads. -/
inductive Catch
  | One (tag : Nat) (label : Nat)
  | OneRef (tag : Nat) (label : Nat)
  | All (label : Nat)
  | AllRef (label : Nat)
deriving DecidableEq

/-- `wasmparser::TryTable`. -/
structure TryTable where
  ty : BlockType
  catches : List Catch
deriving DecidableEq

/-- `wasmparser::Operator`, constructor for constructor where the source's
`get_instr_uses` arm consults an index or nested type.  Families whose arms
are literally identical in the source are folded into one constructor each,
named after the family's first member and commented with the members they
stand for.  `OtherSimple` stands for every remaining operator: all of those
are mapped to `Uses::default()` by the source (explicitly or through its
final catch-all arm). -/
inductive Operator
  | Unreachable
  | Nop
  | Else
  | End
  | Block (blockty : BlockType)
  | Loop (blockty : BlockType)
  | If (blockty : BlockType)
  | Br (relative_depth : Nat)
  | BrIf (relative_depth : Nat)
  | Return
  | Call (function_index : Nat)
  | CallIndirect (type_index : Nat) (table_index : Nat)
  | Drop
  | Select
  | LocalGet (local_index : Nat)
  | LocalSet (local_index : Nat)
  | LocalTee (local_index : Nat)
  | GlobalGet (global_index : Nat)
  | GlobalSet (global_index : Nat)
  | I32Const (value : Int)
  /-- stands for all the plain, atomic and SIMD load/store operators, whose
  arms are all `get_memarg_uses(memarg)` -/
  | I32Load (memarg : MemArg)
  | MemorySize (mem : Nat)
  | MemoryGrow (mem : Nat)
  /-- stands for StructNew, StructNewDefault, StructGet, StructGetS,
  StructGetU, StructSet and the StructAtomic family: all are
  `Uses::single_type(struct_type_index)` -/
  | StructNew (struct_type_index : Nat)
  /-- stands for ArrayNew, ArrayNewDefault, ArrayNewFixed, ArrayGet,
  ArrayGetS, ArrayGetU, ArraySet, ArrayFill and the ArrayAtomic family: all
  are `Uses::single_type(array_type_index)` -/
  | ArrayNew (array_type_index : Nat)
  /-- also stands for ArrayInitData (the identical arm) -/
  | ArrayNewData (array_type_index : Nat) (array_data_index : Nat)
  /-- also stands for ArrayInitElem (the identical arm) -/
  | ArrayNewElem (array_type_index : Nat) (array_elem_index : Nat)
  | ArrayCopy (array_type_index_dst : Nat) (array_type_index_src : Nat)
  /-- stands for RefTestNonNull, RefTestNullable, RefCastNonNull,
  RefCastNullable and RefNull: all are `get_heaptype_uses(hty)` -/
  | RefTestNonNull (hty : HeapType)
  /-- also stands for BrOnCastFail (the identical arm) -/
  | BrOnCast (relative_depth : Nat) (from_ref_type : RefType) (to_ref_type : RefType)
  | MemoryInit (data_index : Nat) (mem : Nat)
  | DataDrop (data_index : Nat)
  | MemoryCopy (dst_mem : Nat) (src_mem : Nat)
  | MemoryFill (mem : Nat)
  | TableInit (elem_index : Nat) (table : Nat)
  | ElemDrop (elem_index : Nat)
  | TableCopy (dst_table : Nat) (src_table : Nat)
  | TypedSelect (ty : ValType)
  | RefFunc (function_index : Nat)
  /-- stands for TableFill, TableGet, TableSet, TableGrow, TableSize and the
  TableAtomic family: all are `Uses::single_table(table)` -/
  | TableGet (table : Nat)
  | ReturnCall (function_index : Nat)
  | ReturnCallIndirect (type_index : Nat) (table_index : Nat)
  | TryTable (try_table : TryTable)
  | Throw (tag_index : Nat)
  | Catch (tag_index : Nat)
  | Try (blockty : BlockType)
  /-- stands for GlobalAtomicGet .. GlobalAtomicRmwCmpxchg: all are
  `Uses::single_global(global_index)` -/
  | GlobalAtomicGet (global_index : Nat)
  | CallRef (type_index : Nat)
  | ReturnCallRef (type_index : Nat)
  /-- stands for ContNew, ContBind, Suspend, Resume, ResumeThrow and Switch:
  all are `todo!()` -/
  | ContNew
  /-- every remaining operator: numeric, SIMD, branch and reference ops that
  carry no module-level index; the source maps each to `Uses::default()` -/
  | OtherSimple

/-- `wasmparser::ConstExpr`: an opaque constant expression.  The program
never walks its operators (the `TODO` comments in main.rs note the missing
relocation); it only clones it through `RoundtripReencoder::const_expr`,
which round-trips it unchanged. -/
structure ConstExpr where
  ops : List Operator

/-! ### Direct-use computation (src/main.rs lines 705-1625, src/uses.rs)

Each `get_*_uses` returns `Option Uses`; `none` is the `todo!()` panic. -/

def get_heaptype_uses : HeapType → Option Uses
  | .Abstract => some Uses.empty
  | .Concrete idx =>
    match idx with
    | .Module i => some (Uses.single_type i)
    | _ => none

def get_reftype_uses (ty : RefType) : Option Uses :=
  get_heaptype_uses ty.heap_type

def get_valtype_uses : ValType → Option Uses
  | .Ref ref_type => get_reftype_uses ref_type
  | _ => some Uses.empty

def get_storagetype_uses : StorageType → Option Uses
  | .I8 => some Uses.empty
  | .I16 => some Uses.empty
  | .Val val_type => get_valtype_uses val_type

def get_fieldtype_uses (ty : FieldType) : Option Uses :=
  get_storagetype_uses ty.element_type

/-- Fold a use computation over a list, merging into an accumulator, the way
the source's `for` loops call `res.merge(get_..._uses(x))`. -/
def mergeUsesList (f : α → Option Uses) (l : List α) (init : Uses) : Option Uses :=
  l.foldlM (fun acc x => (f x).map (fun u => acc.merge u)) init

def get_functype_uses (ty : FuncType) : Option Uses := do
  let res ← mergeUsesList get_valtype_uses ty.params Uses.empty
  mergeUsesList get_valtype_uses ty.results res

def get_arraytype_uses (ty : ArrayType) : Option Uses :=
  get_fieldtype_uses ty.fieldType

def get_structtype_uses (ty : StructType) : Option Uses :=
  mergeUsesList get_fieldtype_uses ty.fields Uses.empty

def get_type_uses : CompositeInnerType → Option Uses
  | .Func func_type => get_functype_uses func_type
  | .Array array_type => get_arraytype_uses array_type
  | .Struct struct_type => get_structtype_uses struct_type
  | .Cont => none

def get_tabletype_uses (ty : TableType) : Option Uses :=
  get_reftype_uses ty.element_type

def get_globaltype_uses (ty : GlobalType) : Option Uses :=
  get_valtype_uses ty.content_type

/-- src/uses.rs line 155; present in uses.rs only, unused by main.rs. -/
def get_tagtype_uses (ty : TagType) : Option Uses :=
  some (Uses.single_type ty.func_type_idx)

def get_blocktype_uses : BlockType → Option Uses
  | .Empty => some Uses.empty
  | .Type val_type => get_valtype_uses val_type
  | .FuncType ty => some (Uses.single_type ty)

def get_memarg_uses (memarg : MemArg) : Option Uses :=
  some (Uses.single_memory memarg.memory)

def get_catch_uses : Catch → Option Uses
  | .One tag _ => some (Uses.single_tag tag)
  | .OneRef tag _ => some (Uses.single_tag tag)
  | .All _ => some Uses.empty
  | .AllRef _ => some Uses.empty

def get_instr_uses : Operator → Option Uses
  | .Unreachable => some Uses.empty
  | .Nop => some Uses.empty
  | .Else => some Uses.empty
  | .End => some Uses.empty
  | .Block blockty => get_blocktype_uses blockty
  | .Loop blockty => get_blocktype_uses blockty
  | .If blockty => get_blocktype_uses blockty
  | .Br _ => some Uses.empty
  | .BrIf _ => some Uses.empty
  | .Return => some Uses.empty
  | .Call function_index => some (Uses.single_func function_index)
  | .CallIndirect type_index table_index =>
    some { Uses.empty with live_types := [type_index], live_tables := [table_index] }
  | .Drop => some Uses.empty
  | .Select => some Uses.empty
  | .LocalGet _ => some Uses.empty
  | .LocalSet _ => some Uses.empty
  | .LocalTee _ => some Uses.empty
  | .GlobalGet global_index => some (Uses.single_global global_index)
  | .GlobalSet global_index => some (Uses.single_global global_index)
  | .I32Const _ => some Uses.empty
  | .I32Load memarg => get_memarg_uses memarg
  | .MemorySize mem => some (Uses.single_memory mem)
  | .MemoryGrow mem => some (Uses.single_memory mem)
  | .StructNew struct_type_index => some (Uses.single_type struct_type_index)
  | .ArrayNew array_type_index => some (Uses.single_type array_type_index)
  | .ArrayNewData array_type_index array_data_index =>
    some { Uses.empty with live_types := [array_type_index], live_datas := [array_data_index] }
  | .ArrayNewElem array_type_index array_elem_index =>
    some { Uses.empty with live_types := [array_type_index], live_elems := [array_elem_index] }
  | .ArrayCopy array_type_index_dst array_type_index_src =>
    some { Uses.empty with live_types := [array_type_index_dst, array_type_index_src] }
  | .RefTestNonNull hty => get_heaptype_uses hty
  | .BrOnCast _ from_ref_type to_ref_type => do
    let a ← get_reftype_uses from_ref_type
    let b ← get_reftype_uses to_ref_type
    pure (Uses.all [a, b])
  | .MemoryInit data_index mem =>
    some { Uses.empty with live_datas := [data_index], live_memories := [mem] }
  | .DataDrop data_index => some (Uses.single_data data_index)
  | .MemoryCopy dst_mem src_mem =>
    some { Uses.empty with live_memories := [dst_mem, src_mem] }
  | .MemoryFill mem => some (Uses.single_memory mem)
  | .TableInit elem_index table =>
    some { Uses.empty with live_elems := [elem_index], live_tables := [table] }
  | .ElemDrop elem_index => some (Uses.single_elem elem_index)
  | .TableCopy dst_table src_table =>
    some { Uses.empty with live_tables := [dst_table, src_table] }
  | .TypedSelect ty => get_valtype_uses ty
  | .RefFunc function_index => some (Uses.single_func function_index)
  | .TableGet table => some (Uses.single_table table)
  | .ReturnCall function_index => some (Uses.single_func function_index)
  | .ReturnCallIndirect type_index table_index =>
    some { Uses.empty with live_types := [type_index], live_tables := [table_index] }
  | .TryTable try_table => do
    let res ← get_blocktype_uses try_table.ty
    mergeUsesList get_catch_uses try_table.catches res
  | .Throw tag_index => some (Uses.single_tag tag_index)
  | .Catch tag_index => some (Uses.single_tag tag_index)
  | .Try blockty => get_blocktype_uses blockty
  | .GlobalAtomicGet global_index => some (Uses.single_global global_index)
  | .CallRef type_index => some (Uses.single_type type_index)
  | .ReturnCallRef type_index => some (Uses.single_type type_index)
  | .ContNew => none
  | .OtherSimple => some Uses.empty

/-! ### Module-level decoded items (wasmparser section payload entries) -/

/-- `wasmparser::TypeRef`, the type of one import. -/
inductive TypeRef
  | Func (type_idx : Nat)
  | Table (ty : TableType)
  | Memory (ty : MemoryType)
  | Global (ty : GlobalType)
  | Tag (ty : TagType)
deriving DecidableEq

/-- `wasmparser::Import`. -/
structure Import where
  module : String
  name : String
  ty : TypeRef
deriving DecidableEq

/-- `wasmparser::TableInit`. -/
inductive TableInit
  | RefNull
  | Expr (init_expr : ConstExpr)

/-- `wasmparser::Table`. -/
structure Table where
  ty : TableType
  init : TableInit

/-- `wasmparser::Global`. -/
structure Global where
  ty : GlobalType
  init_expr : ConstExpr

/-- `wasmparser::ExternalKind` of an export. -/
inductive ExternalKind
  | Func
  | Table
  | Memory
  | Global
  | Tag
deriving DecidableEq

/-- `wasmparser::Export`. -/
structure Export where
  name : String
  kind : ExternalKind
  index : Nat
deriving DecidableEq

/-- `wasmparser::ElementKind`. -/
inductive ElementKind
  | Passive
  | Active (table_index : Nat) (offset_expr : ConstExpr)
  | Declared

/-- `wasmparser::ElementItems`. -/
inductive ElementItems
  | Functions (idxs : List Nat)
  | Expressions (ty : RefType) (exprs : List ConstExpr)

/-- `wasmparser::Element`. -/
structure Element where
  kind : ElementKind
  items : ElementItems

/-- `wasmparser::DataKind`. -/
inductive DataKind
  | Passive
  | Active (memory_index : Nat) (offset_expr : ConstExpr)

/-- `wasmparser::Data`. -/
structure Data where
  kind : DataKind
  data : List Nat

/-- `struct Func` (src/main.rs lines 590-594). -/
structure Func where
  type_idx : Nat
  locals : List (Nat × ValType)
  instructions : List Operator

/-- `wasm_encoder::RawSection`. -/
structure RawSection where
  id : Nat
  data : List Nat
deriving DecidableEq

/-- `enum Section` (src/main.rs lines 1627-1640). -/
inductive Section
  | Passthrough (sec : RawSection)
  | Import
  | Function
  | Table
  | Memory
  | Global
  | Export
  | Start
  | Element
  | Code
  | Data
  | Tag
deriving DecidableEq

/-- `Section::raw` (src/main.rs lines 1642-1650). -/
def Section.raw (id : Nat) (bytes : List Nat) : Section :=
  Section.Passthrough ⟨id, bytes⟩

/-- The mutable local state that `main` accumulates while draining the
parser (src/main.rs lines 41-65). -/
structure ParseState where
  types : List CompositeInnerType
  num_imported_functions : Nat
  num_imported_tables : Nat
  num_imported_memories : Nat
  num_imported_globals : Nat
  num_imported_tags : Nat
  func_types : List Nat
  table_types : List TableType
  memory_types : List MemoryType
  global_types : List GlobalType
  tag_types : List TagType
  current_func : Nat
  first_func : Bool
  imports : List Import
  defined_tables : List Table
  defined_globals : List Global
  exports : List Export
  start_idx : Option Nat
  elems : List Element
  defined_funcs : List Func
  datas : List Data
  sections : List Section

/-- The initial values of those locals. -/
def ParseState.init : ParseState where
  types := []
  num_imported_functions := 0
  num_imported_tables := 0
  num_imported_memories := 0
  num_imported_globals := 0
  num_imported_tags := 0
  func_types := []
  table_types := []
  memory_types := []
  global_types := []
  tag_types := []
  current_func := 0
  first_func := true
  imports := []
  defined_tables := []
  defined_globals := []
  exports := []
  start_idx := none
  elems := []
  defined_funcs := []
  datas := []
  sections := []

/-! ### The reachability driver (src/main.rs lines 216-310) -/

/-- `enum WorkItem` (src/main.rs lines 596-605). -/
inductive WorkItem
  | Type (idx : Nat)
  | Func (idx : Nat)
  | Table (idx : Nat)
  | Global (idx : Nat)
  | Memory (idx : Nat)
  | Data (idx : Nat)
  | Elem (idx : Nat)
  | Tag (idx : Nat)
deriving DecidableEq

/-- How a run of the program can panic.  `unimplemented` is a `todo!()`;
`outOfBounds` is an out-of-bounds `Vec` index or a failed `expect`. -/
inductive Abort
  | unimplemented
  | outOfBounds
deriving DecidableEq

/-- Lift a `get_*_uses` result: its `none` is a `todo!()` panic. -/
def liftTodo : Option Uses → Except Abort Uses
  | none => .error .unimplemented
  | some u => .ok u

/-- The per-item use computation of the worklist loop: the `match work`
expression at src/main.rs lines 226-264.  Each arm merges the item itself
with its direct uses; `Data`, `Elem` and `Tag` are `todo!()`. -/
def computeUses (st : ParseState) : WorkItem → Except Abort Uses
  | .Type idx =>
    match st.types[idx]? with
    | none => .error .outOfBounds
    | some t =>
      match get_type_uses t with
      | none => .error .unimplemented
      | some u => .ok ((Uses.single_type idx).merge u)
  | .Func idx =>
    if idx < st.num_imported_functions then
      .ok (Uses.single_func idx)
    else
      match st.defined_funcs[idx - st.num_imported_functions]? with
      | none => .error .outOfBounds
      | some func =>
        liftTodo (do
          let res := (Uses.single_func idx).merge (Uses.single_type func.type_idx)
          let res ← mergeUsesList (fun lv => get_valtype_uses lv.2) func.locals res
          mergeUsesList get_instr_uses func.instructions res)
  | .Table idx =>
    match st.table_types[idx]? with
    | none => .error .outOfBounds
    | some ty =>
      match get_tabletype_uses ty with
      | none => .error .unimplemented
      | some u => .ok ((Uses.single_table idx).merge u)
  | .Global idx =>
    match st.global_types[idx]? with
    | none => .error .outOfBounds
    | some ty =>
      match get_globaltype_uses ty with
      | none => .error .unimplemented
      | some u => .ok ((Uses.single_global idx).merge u)
  | .Memory idx => .ok (Uses.single_memory idx)
  | .Data _ => .error .unimplemented
  | .Elem _ => .error .unimplemented
  | .Tag _ => .error .unimplemented

/-- Membership of a work item in a `Uses` record. -/
def memUses : WorkItem → Uses → Prop
  | .Type i, u => i ∈ u.live_types
  | .Func i, u => i ∈ u.live_funcs
  | .Table i, u => i ∈ u.live_tables
  | .Global i, u => i ∈ u.live_globals
  | .Memory i, u => i ∈ u.live_memories
  | .Data i, u => i ∈ u.live_datas
  | .Elem i, u => i ∈ u.live_elems
  | .Tag i, u => i ∈ u.live_tags

instance (w : WorkItem) (u : Uses) : Decidable (memUses w u) := by
  cases w <;> exact List.instDecidableMemOfLawfulBEq _ _

/-- The eight push loops at src/main.rs lines 267-307: every index of
`new_uses` that is not yet in `all_uses` is appended to the queue, space by
space in the source's order. -/
def pushNew (all_uses new_uses : Uses) : List WorkItem :=
  ((new_uses.live_types.filter (fun i => decide (i ∉ all_uses.live_types))).map WorkItem.Type)
  ++ ((new_uses.live_funcs.filter (fun i => decide (i ∉ all_uses.live_funcs))).map WorkItem.Func)
  ++ ((new_uses.live_tables.filter (fun i => decide (i ∉ all_uses.live_tables))).map WorkItem.Table)
  ++ ((new_uses.live_globals.filter (fun i => decide (i ∉ all_uses.live_globals))).map WorkItem.Global)
  ++ ((new_uses.live_memories.filter (fun i => decide (i ∉ all_uses.live_memories))).map WorkItem.Memory)
  ++ ((new_uses.live_datas.filter (fun i => decide (i ∉ all_uses.live_datas))).map WorkItem.Data)
  ++ ((new_uses.live_elems.filter (fun i => decide (i ∉ all_uses.live_elems))).map WorkItem.Elem)
  ++ ((new_uses.live_tags.filter (fun i => decide (i ∉ all_uses.live_tags))).map WorkItem.Tag)

/-- The worklist loop (src/main.rs lines 223-310), indexed by fuel.  `none`
means the fuel ran out; `some (.error e)` means the iteration panicked;
`some (.ok all)` means the queue drained and `all_uses` is `all`.  The
source peeks `first()`, computes the uses, pops with `remove(0)`, pushes
the new items at the back, and finally merges. -/
def runWorklist (st : ParseState) : Nat → List WorkItem → Uses → Option (Except Abort Uses)
  | 0, _, _ => none
  | _ + 1, [], all_uses => some (.ok all_uses)
  | fuel + 1, work :: rest, all_uses =>
    match computeUses st work with
    | .error e => some (.error e)
    | .ok new_uses =>
      runWorklist st fuel (rest ++ pushNew all_uses new_uses) (all_uses.merge new_uses)

/-- All items of `u` are items of `all`. -/
def usesSubset (u all : Uses) : Prop := ∀ w : WorkItem, memUses w u → memUses w all

/-! ### Relocations (src/main.rs lines 317-350 and 575-580) -/

/-- `enum Relocation` (src/main.rs lines 1652-1662; identical in
src/relocation.rs lines 7-16). -/
inductive Relocation
  | Type (idx : Nat)
  | Func (idx : Nat)
  | Table (idx : Nat)
  | Global (idx : Nat)
  | Memory (idx : Nat)
  | Data (idx : Nat)
  | Elem (idx : Nat)
  | Tag (idx : Nat)
deriving DecidableEq

/-- `fn get_new_index` (src/main.rs lines 575-580): the position of `idx`
in the live list; `none` is the `expect` panic when it is absent. -/
def get_new_index (live_things : List Nat) (idx : Nat) : Option Nat :=
  live_things.findIdx? (fun v => v == idx)

/-- One of the eight insertion loops of the relocation block: for each `i`
in `iterate`, insert `(space i, get_new_index lookupIn i)` into the map,
panicking when the position is absent.  The `HashMap` is modelled as an
insertion-ordered association list (all inserted keys are distinct). -/
def insertRelocs (space : Nat → Relocation) (iterate lookupIn : List Nat)
    (relocations : List (Relocation × Nat)) : Option (List (Relocation × Nat)) :=
  iterate.foldlM (fun acc idx =>
    match get_new_index lookupIn idx with
    | none => none
    | some new_idx => some (acc ++ [(space idx, new_idx)])) relocations

/-- The relocation-building block (src/main.rs lines 317-350).  The first
loop is exactly as in the source: it iterates `all_uses.live_tables` (not
`live_types`) while computing positions inside `live_types`. -/
def buildRelocations (all_uses : Uses) : Option (List (Relocation × Nat)) := do
  let relocations : List (Relocation × Nat) := []
  let relocations ← insertRelocs Relocation.Type all_uses.live_tables all_uses.live_types relocations
  let relocations ← insertRelocs Relocation.Func all_uses.live_funcs all_uses.live_funcs relocations
  let relocations ← insertRelocs Relocation.Table all_uses.live_tables all_uses.live_tables relocations
  let relocations ← insertRelocs Relocation.Global all_uses.live_globals all_uses.live_globals relocations
  let relocations ← insertRelocs Relocation.Memory all_uses.live_memories all_uses.live_memories relocations
  let relocations ← insertRelocs Relocation.Data all_uses.live_datas all_uses.live_datas relocations
  let relocations ← insertRelocs Relocation.Elem all_uses.live_elems all_uses.live_elems relocations
  insertRelocs Relocation.Tag all_uses.live_tags all_uses.live_tags relocations

/-- `HashMap::get` on the relocation table. -/
def relocGet (relocations : List (Relocation × Nat)) (r : Relocation) : Option Nat :=
  (relocations.find? (fun p => p.1 == r)).map (fun p => p.2)

/-! ### `RelocatingReencoder` (src/relocation.rs lines 39-119)

The `utils::*_index` helpers of wasm_encoder's round-tripping reencoder are
external collaborators; on a plain index each returns its argument
unchanged, so they are modelled as the identity. -/

def utils.data_index (data : Nat) : Nat := data

def utils.element_index (element : Nat) : Nat := element

def utils.function_index (func : Nat) : Nat := func

def utils.global_index (global : Nat) : Nat := global

def utils.memory_index (memory : Nat) : Nat := memory

def utils.table_index (table : Nat) : Nat := table

def utils.tag_index (tag : Nat) : Nat := tag

def utils.type_index (ty : Nat) : Nat := ty

/-- `RelocatingReencoder::data_index`: mapped new index when present in the
relocation map, the index unchanged (`unwrap_or`) otherwise. -/
def RelocatingReencoder.data_index (relocations : List (Relocation × Nat)) (data : Nat) : Nat :=
  utils.data_index ((relocGet relocations (Relocation.Data data)).getD data)

/-- `RelocatingReencoder::element_index`. -/
def RelocatingReencoder.element_index (relocations : List (Relocation × Nat)) (element : Nat) : Nat :=
  utils.element_index ((relocGet relocations (Relocation.Elem element)).getD element)

/-- `RelocatingReencoder::function_index`. -/
def RelocatingReencoder.function_index (relocations : List (Relocation × Nat)) (func : Nat) : Nat :=
  utils.function_index ((relocGet relocations (Relocation.Func func)).getD func)

/-- `RelocatingReencoder::global_index`. -/
def RelocatingReencoder.global_index (relocations : List (Relocation × Nat)) (global : Nat) : Nat :=
  utils.global_index ((relocGet relocations (Relocation.Global global)).getD global)

/-- `RelocatingReencoder::memory_index`. -/
def RelocatingReencoder.memory_index (relocations : List (Relocation × Nat)) (memory : Nat) : Nat :=
  utils.memory_index ((relocGet relocations (Relocation.Memory memory)).getD memory)

/-- `RelocatingReencoder::table_index`. -/
def RelocatingReencoder.table_index (relocations : List (Relocation × Nat)) (table : Nat) : Nat :=
  utils.table_index ((relocGet relocations (Relocation.Table table)).getD table)

/-- `RelocatingReencoder::tag_index`. -/
def RelocatingReencoder.tag_index (relocations : List (Relocation × Nat)) (tag : Nat) : Nat :=
  utils.tag_index ((relocGet relocations (Relocation.Tag tag)).getD tag)

/-- `RelocatingReencoder::type_index`. -/
def RelocatingReencoder.type_index (relocations : List (Relocation × Nat)) (ty : Nat) : Nat :=
  utils.type_index ((relocGet relocations (Relocation.Type ty)).getD ty)

/-! ### The decoder bridge (src/main.rs lines 67-210) -/

/-- The wasmparser payload events of the input module, carrying exactly the
data the program reads from each.  `raw` components stand for the byte
slice `&buf[r.range()]`. -/
inductive Payload
  | TypeSection (raw : List Nat) (rec_groups : List (List CompositeInnerType))
  | ImportSection (entries : List Import)
  | FunctionSection (tys : List Nat)
  | TableSection (tables : List Table)
  | MemorySection (mems : List MemoryType)
  | TagSection (raw : List Nat)
  | GlobalSection (globals : List Global)
  | ExportSection (entries : List Export)
  | StartSection (func : Nat)
  | ElementSection (entries : List Element)
  | DataCountSection (raw : List Nat)
  | DataSection (entries : List Data)
  | CodeSectionStart
  | CodeSectionEntry (locals : List (Nat × ValType)) (instructions : List Operator)
  | CustomSection (name : String) (raw : List Nat)
  | Other

/-- The per-import bookkeeping inside the `ImportSection` arm
(src/main.rs lines 82-107). -/
def processImport (st : ParseState) (imp : Import) : ParseState :=
  let st :=
    match imp.ty with
    | .Func type_idx =>
      { st with num_imported_functions := st.num_imported_functions + 1,
                func_types := st.func_types ++ [type_idx] }
    | .Table ty =>
      { st with num_imported_tables := st.num_imported_tables + 1,
                table_types := st.table_types ++ [ty] }
    | .Memory ty =>
      { st with num_imported_memories := st.num_imported_memories + 1,
                memory_types := st.memory_types ++ [ty] }
    | .Global ty =>
      { st with num_imported_globals := st.num_imported_globals + 1,
                global_types := st.global_types ++ [ty] }
    | .Tag ty =>
      { st with num_imported_tags := st.num_imported_tags + 1,
                tag_types := st.tag_types ++ [ty] }
  { st with imports := st.imports ++ [imp] }

/-- One arm of the payload `match` (src/main.rs lines 68-209).  `none` is
the panic when `func_types[current_func]` is out of bounds. -/
def processPayload (st : ParseState) : Payload → Option ParseState
  | .TypeSection raw rec_groups =>
    some { st with sections := st.sections ++ [Section.raw 1 raw],
                   types := st.types ++ rec_groups.flatten }
  | .ImportSection entries =>
    some (entries.foldl processImport
      { st with sections := st.sections ++ [Section.Import] })
  | .FunctionSection tys =>
    some { st with sections := st.sections ++ [Section.Function],
                   func_types := st.func_types ++ tys }
  | .TableSection tables =>
    some { st with sections := st.sections ++ [Section.Table],
                   table_types := st.table_types ++ tables.map (fun t => t.ty),
                   defined_tables := st.defined_tables ++ tables }
  | .MemorySection mems =>
    some { st with sections := st.sections ++ [Section.Memory],
                   memory_types := st.memory_types ++ mems }
  | .TagSection raw =>
    some { st with sections := st.sections ++ [Section.raw 13 raw] }
  | .GlobalSection globals =>
    some { st with sections := st.sections ++ [Section.Global],
                   global_types := st.global_types ++ globals.map (fun g => g.ty),
                   defined_globals := st.defined_globals ++ globals }
  | .ExportSection entries =>
    some { st with sections := st.sections ++ [Section.Export],
                   exports := st.exports ++ entries }
  | .StartSection func =>
    some { st with sections := st.sections ++ [Section.Start],
                   start_idx := some func }
  | .ElementSection entries =>
    some { st with sections := st.sections ++ [Section.Element],
                   elems := st.elems ++ entries }
  | .DataCountSection raw =>
    some { st with sections := st.sections ++ [Section.raw 12 raw] }
  | .DataSection entries =>
    some { st with sections := st.sections ++ [Section.Data],
                   datas := st.datas ++ entries }
  | .CodeSectionStart =>
    some { st with sections := st.sections ++ [Section.Code],
                   current_func := st.num_imported_functions }
  | .CodeSectionEntry locals instructions =>
    let st :=
      if st.first_func then { st with first_func := false }
      else { st with current_func := st.current_func + 1 }
    match st.func_types[st.current_func]? with
    | none => none
    | some type_idx =>
      some { st with defined_funcs := st.defined_funcs ++ [⟨type_idx, locals, instructions⟩] }
  | .CustomSection name raw =>
    if name = "name" then some st
    else some { st with sections := st.sections ++ [Section.raw 0 raw] }
  | .Other => some st

/-- The whole decode loop `for payload in parser.parse_all(&buf)`. -/
def parseAll (payloads : List Payload) : Option ParseState :=
  payloads.foldlM processPayload ParseState.init

/-! ### The emitter (src/main.rs lines 356-567) -/

/-- `wasm_encoder::EntityType` as written by the import arm. -/
inductive EntityType
  | Function (type_idx : Nat)
  | Table (ty : TableType)
  | Memory (ty : MemoryType)
  | Global (ty : GlobalType)
  | Tag (ty : TagType)
deriving DecidableEq

/-- One emitted import. -/
structure OutImport where
  module : String
  name : String
  ty : EntityType
deriving DecidableEq

/-- One emitted table: `table` or `table_with_init`. -/
inductive OutTable
  | table (ty : TableType)
  | table_with_init (ty : TableType) (init : ConstExpr)

/-- One emitted global. -/
structure OutGlobal where
  ty : GlobalType
  init : ConstExpr

/-- One emitted export. -/
structure OutExport where
  name : String
  kind : ExternalKind
  index : Nat
deriving DecidableEq

/-- `wasm_encoder::ElementMode` as the program writes it. -/
inductive OutElementMode
  | Passive
  | Active (table : Nat) (offset : ConstExpr)

/-- One emitted element segment. -/
structure OutElement where
  mode : OutElementMode
  elements : ElementItems

/-- The only instruction the program ever writes into a function body. -/
inductive EInstr
  | End
deriving DecidableEq

/-- One emitted code-section entry. -/
structure OutFunc where
  locals : List (Nat × ValType)
  instructions : List EInstr
deriving DecidableEq

/-- `wasm_encoder::DataSegmentMode` as the program writes it. -/
inductive OutDataMode
  | Passive
  | Active (memory_index : Nat) (offset : ConstExpr)

/-- One emitted data segment. -/
structure OutData where
  mode : OutDataMode
  data : List Nat

/-- One section written to the output module. -/
inductive OutSection
  | Raw (id : Nat) (data : List Nat)
  | Import (entries : List OutImport)
  | Function (tyidxs : List Nat)
  | Table (entries : List OutTable)
  | Global (entries : List OutGlobal)
  | Export (entries : List OutExport)
  | Start (function_index : Nat)
  | Element (segments : List OutElement)
  | Code (funcs : List OutFunc)
  | Data (segments : List OutData)

/-- The import-section walk (src/main.rs lines 362-425): five per-kind
counters, each incremented after its liveness check; live imports are
emitted with their type round-tripped unchanged (and, for functions, the
type index not relocated, exactly as in the source). -/
def importLoop (all_uses : Uses) :
    List Import → Nat → Nat → Nat → Nat → Nat → List OutImport
  | [], _, _, _, _, _ => []
  | imp :: rest, nf, nt, nm, ng, ntg =>
    match imp.ty with
    | .Func type_idx =>
      (if nf ∈ all_uses.live_funcs then [⟨imp.module, imp.name, EntityType.Function type_idx⟩] else [])
        ++ importLoop all_uses rest (nf + 1) nt nm ng ntg
    | .Table ty =>
      (if nt ∈ all_uses.live_tables then [⟨imp.module, imp.name, EntityType.Table ty⟩] else [])
        ++ importLoop all_uses rest nf (nt + 1) nm ng ntg
    | .Memory ty =>
      (if nm ∈ all_uses.live_memories then [⟨imp.module, imp.name, EntityType.Memory ty⟩] else [])
        ++ importLoop all_uses rest nf nt (nm + 1) ng ntg
    | .Global ty =>
      (if ng ∈ all_uses.live_globals then [⟨imp.module, imp.name, EntityType.Global ty⟩] else [])
        ++ importLoop all_uses rest nf nt nm (ng + 1) ntg
    | .Tag ty =>
      (if ntg ∈ all_uses.live_tags then [⟨imp.module, imp.name, EntityType.Tag ty⟩] else [])
        ++ importLoop all_uses rest nf nt nm ng (ntg + 1)

/-- The function-section walk (src/main.rs lines 427-437): one unrelocated
type index per live defined function; `none` is the `func_types[idx]`
indexing panic. -/
def emitFunctionList (st : ParseState) (relocations : List (Relocation × Nat)) :
    Option (List Nat) :=
  (List.range st.defined_funcs.length).foldlM (fun acc i =>
    let idx := st.num_imported_functions + i
    if (relocGet relocations (Relocation.Func idx)).isSome then
      match st.func_types[idx]? with
      | none => none
      | some t => some (acc ++ [t])
    else some acc) []

/-- The table-section walk (src/main.rs lines 438-458). -/
def emitTableList (st : ParseState) (relocations : List (Relocation × Nat)) :
    List OutTable :=
  (List.range st.defined_tables.length).filterMap (fun i =>
    match st.defined_tables[i]? with
    | none => none
    | some table =>
      let idx := st.num_imported_tables + i
      if (relocGet relocations (Relocation.Table idx)).isSome then
        match table.init with
        | .RefNull => some (OutTable.table table.ty)
        | .Expr init_expr => some (OutTable.table_with_init table.ty init_expr)
      else none)

/-- The global-section walk (src/main.rs lines 460-473). -/
def emitGlobalList (st : ParseState) (relocations : List (Relocation × Nat)) :
    List OutGlobal :=
  (List.range st.defined_globals.length).filterMap (fun i =>
    match st.defined_globals[i]? with
    | none => none
    | some global =>
      let idx := st.num_imported_globals + i
      if (relocGet relocations (Relocation.Global idx)).isSome then
        some ⟨global.ty, global.init_expr⟩
      else none)

/-- The `Relocation` key an export's target is looked up under
(src/main.rs lines 477-483). -/
def relocOfExport (e : Export) : Relocation :=
  match e.kind with
  | .Func => Relocation.Func e.index
  | .Table => Relocation.Table e.index
  | .Memory => Relocation.Memory e.index
  | .Global => Relocation.Global e.index
  | .Tag => Relocation.Tag e.index

/-- The export-section walk (src/main.rs lines 474-489): each original
export whose target is in the relocation map, with the mapped index. -/
def emitExportList (st : ParseState) (relocations : List (Relocation × Nat)) :
    List OutExport :=
  st.exports.filterMap (fun e =>
    match relocGet relocations (relocOfExport e) with
    | some new_idx => some ⟨e.name, e.kind, new_idx⟩
    | none => none)

/-- The element-section walk (src/main.rs lines 499-525); a `Declared`
element is a `todo!()`. -/
def emitElementList (st : ParseState) (relocations : List (Relocation × Nat)) :
    Option (List OutElement) :=
  (List.range st.elems.length).foldlM (fun acc i =>
    match st.elems[i]? with
    | none => some acc
    | some elem =>
      if (relocGet relocations (Relocation.Elem i)).isSome then
        match elem.kind with
        | .Passive => some (acc ++ [⟨OutElementMode.Passive, elem.items⟩])
        | .Active table_index offset_expr =>
          some (acc ++ [⟨OutElementMode.Active table_index offset_expr, elem.items⟩])
        | .Declared => none
      else some acc) []

/-- The code-section walk (src/main.rs lines 526-538): for each live
defined function (membership checked in `live_funcs`), one function with no
locals and a single `End` instruction. -/
def emitCodeList (st : ParseState) (all_uses : Uses) : List OutFunc :=
  (List.range st.defined_funcs.length).filterMap (fun i =>
    let idx := i + st.num_imported_functions
    if idx ∈ all_uses.live_funcs then some ⟨[], [EInstr.End]⟩ else none)

/-- The data-section walk (src/main.rs lines 539-564); the payload written
is `vec![]`. -/
def emitDataList (st : ParseState) (relocations : List (Relocation × Nat)) :
    List OutData :=
  (List.range st.datas.length).filterMap (fun i =>
    match st.datas[i]? with
    | none => none
    | some data =>
      if (relocGet relocations (Relocation.Data i)).isSome then
        match data.kind with
        | .Passive => some ⟨OutDataMode.Passive, []⟩
        | .Active memory_index offset_expr =>
          some ⟨OutDataMode.Active memory_index offset_expr, []⟩
      else none)

/-- One arm of the emission `match section` (src/main.rs lines 358-566).
`Memory` and `Tag` are `todo!()`; `Start` writes a section only when the
start function is in the relocation map, and then writes the ORIGINAL
index, exactly as the source does. -/
def emitSection (st : ParseState) (all_uses : Uses)
    (relocations : List (Relocation × Nat)) : Section → Option (List OutSection)
  | .Passthrough sec => some [OutSection.Raw sec.id sec.data]
  | .Import => some [OutSection.Import (importLoop all_uses st.imports 0 0 0 0 0)]
  | .Function =>
    match emitFunctionList st relocations with
    | none => none
    | some l => some [OutSection.Function l]
  | .Table => some [OutSection.Table (emitTableList st relocations)]
  | .Memory => none
  | .Global => some [OutSection.Global (emitGlobalList st relocations)]
  | .Export => some [OutSection.Export (emitExportList st relocations)]
  | .Start =>
    match st.start_idx with
    | some idx =>
      if (relocGet relocations (Relocation.Func idx)).isSome then
        some [OutSection.Start idx]
      else some []
    | none => some []
  | .Element =>
    match emitElementList st relocations with
    | none => none
    | some l => some [OutSection.Element l]
  | .Code => some [OutSection.Code (emitCodeList st all_uses)]
  | .Data => some [OutSection.Data (emitDataList st relocations)]
  | .Tag => none

/-- The whole emission loop `for section in sections` (src/main.rs lines
357-567): sections are written in the recorded order; any `todo!()` aborts
the run before anything is written out. -/
def emit (st : ParseState) (all_uses : Uses)
    (relocations : List (Relocation × Nat)) : Option (List OutSection) :=
  match st.sections.mapM (emitSection st all_uses relocations) with
  | none => none
  | some parts => some parts.flatten

/-- The `Section` entry a payload appends, if any: used to state that the
recorded section order mirrors the input payload order. -/
def sectionOfPayload : Payload → Option Section
  | .TypeSection raw _ => some (Section.raw 1 raw)
  | .ImportSection _ => some Section.Import
  | .FunctionSection _ => some Section.Function
  | .TableSection _ => some Section.Table
  | .MemorySection _ => some Section.Memory
  | .TagSection raw => some (Section.raw 13 raw)
  | .GlobalSection _ => some Section.Global
  | .ExportSection _ => some Section.Export
  | .StartSection _ => some Section.Start
  | .ElementSection _ => some Section.Element
  | .DataCountSection raw => some (Section.raw 12 raw)
  | .DataSection _ => some Section.Data
  | .CodeSectionStart => some Section.Code
  | .CodeSectionEntry _ _ => none
  | .CustomSection name raw =>
    if name = "name" then none else some (Section.raw 0 raw)
  | .Other => none

/-- Projection of a raw (passthrough) output section. -/
def outRaw : OutSection → Option (Nat × List Nat)
  | .Raw id data => some (id, data)
  | _ => none

/-- Projection of a raw (passthrough) recorded section. -/
def secRaw : Section → Option (Nat × List Nat)
  | .Passthrough sec => some (sec.id, sec.data)
  | _ => none

/-- Select a raw section of a given id and keep its bytes. -/
def selectId (id : Nat) (pr : Nat × List Nat) : Option (List Nat) :=
  if pr.1 = id then some pr.2 else none

/-- The raw contents of a type-section payload. -/
def typeSectionRaw : Payload → Option (List Nat)
  | .TypeSection raw _ => some raw
  | _ => none

/-- The raw contents of a custom-section payload other than `name`. -/
def keptCustomRaw : Payload → Option (List Nat)
  | .CustomSection name raw => if name = "name" then none else some raw
  | _ => none

/-! ### Reachability as a mathematical closure (for stating preconditions) -/

/-- Transitive reachability through `computeUses` from the seeded function
indices: the closure the worklist loop is meant to compute.  Used to phrase
preconditions of the form "the user's selection transitively reaches only
...". -/
inductive Reach (st : ParseState) (seeds : List Nat) : WorkItem → Prop
  | seed (i : Nat) : i ∈ seeds → Reach st seeds (WorkItem.Func i)
  | step (x y : WorkItem) (u : Uses) :
      Reach st seeds x → computeUses st x = .ok u → memUses y u → Reach st seeds y

/-- The work item lies in one of the five implemented index spaces (types,
functions, tables, globals, memories). -/
def kind5 : WorkItem → Prop
  | .Type _ => True
  | .Func _ => True
  | .Table _ => True
  | .Global _ => True
  | .Memory _ => True
  | .Data _ => False
  | .Elem _ => False
  | .Tag _ => False

instance : (w : WorkItem) → Decidable (kind5 w)
  | .Type _ => .isTrue trivial
  | .Func _ => .isTrue trivial
  | .Table _ => .isTrue trivial
  | .Global _ => .isTrue trivial
  | .Memory _ => .isTrue trivial
  | .Data _ => .isFalse (fun h => h)
  | .Elem _ => .isFalse (fun h => h)
  | .Tag _ => .isFalse (fun h => h)

/-- The work items recorded in a `Uses` value, as a list. -/
def itemsOfUses (u : Uses) : List WorkItem :=
  u.live_types.map WorkItem.Type ++ u.live_funcs.map WorkItem.Func
  ++ u.live_tables.map WorkItem.Table ++ u.live_globals.map WorkItem.Global
  ++ u.live_memories.map WorkItem.Memory ++ u.live_datas.map WorkItem.Data
  ++ u.live_elems.map WorkItem.Elem ++ u.live_tags.map WorkItem.Tag

/-- The items a work item's use computation produces, when it succeeds. -/
def okItemsList (st : ParseState) (x : WorkItem) : List WorkItem :=
  match computeUses st x with
  | .ok u => itemsOfUses u
  | .error _ => []

/-- A finite over-approximation of everything the worklist loop can ever
touch: the seeds, every in-range type/function/table/global item, and all
items in the latter's use sets (memories included).  Used to bound the
loop's running time. -/
def universeList (st : ParseState) (seeds : List Nat) : List WorkItem :=
  seeds.map WorkItem.Func
  ++ (List.range st.types.length).flatMap
      (fun i => WorkItem.Type i :: okItemsList st (WorkItem.Type i))
  ++ (List.range (st.num_imported_functions + st.defined_funcs.length)).flatMap
      (fun i => WorkItem.Func i :: okItemsList st (WorkItem.Func i))
  ++ (List.range st.table_types.length).flatMap
      (fun i => WorkItem.Table i :: okItemsList st (WorkItem.Table i))
  ++ (List.range st.global_types.length).flatMap
      (fun i => WorkItem.Global i :: okItemsList st (WorkItem.Global i))

/-- `universeList` as a finite set. -/
def universeFinset (st : ParseState) (seeds : List Nat) : Finset WorkItem :=
  (universeList st seeds).toFinset

/-- All eight lists of a `Uses` value are duplicate-free. -/
def UsesNodup (u : Uses) : Prop :=
  u.live_types.Nodup ∧ u.live_funcs.Nodup ∧ u.live_tables.Nodup ∧
  u.live_globals.Nodup ∧ u.live_memories.Nodup ∧ u.live_datas.Nodup ∧
  u.live_elems.Nodup ∧ u.live_tags.Nodup

/-! ### Concrete example modules used by the claim theorems -/

/-- A one-type, one-function module; the function's body is a bare `end`. -/
def payloads1 : List Payload :=
  [Payload.TypeSection [1, 2, 3] [[CompositeInnerType.Func ⟨[], []⟩]],
   Payload.FunctionSection [0],
   Payload.CodeSectionStart,
   Payload.CodeSectionEntry [] [Operator.End]]

/-- The parse result of `payloads1`. -/
def st1 : ParseState :=
  { ParseState.init with
    types := [CompositeInnerType.Func ⟨[], []⟩],
    func_types := [0],
    first_func := false,
    defined_funcs := [⟨0, [], [Operator.End]⟩],
    sections := [Section.raw 1 [1, 2, 3], Section.Function, Section.Code] }

/-- The live sets after running the worklist on `st1` seeded with
function 0: type 0 and function 0. -/
def all1 : Uses := { Uses.empty with live_types := [0], live_funcs := [0] }

/-- A module with two tables whose only function touches table 1. -/
def payloads1b : List Payload :=
  [Payload.TypeSection [9] [[CompositeInnerType.Func ⟨[], []⟩]],
   Payload.FunctionSection [0],
   Payload.TableSection
     [⟨⟨⟨HeapType.Abstract⟩⟩, TableInit.RefNull⟩, ⟨⟨⟨HeapType.Abstract⟩⟩, TableInit.RefNull⟩],
   Payload.CodeSectionStart,
   Payload.CodeSectionEntry [] [Operator.TableGet 1, Operator.End]]

/-- The parse result of `payloads1b`. -/
def st1b : ParseState :=
  { ParseState.init with
    types := [CompositeInnerType.Func ⟨[], []⟩],
    func_types := [0],
    table_types := [⟨⟨HeapType.Abstract⟩⟩, ⟨⟨HeapType.Abstract⟩⟩],
    defined_tables :=
      [⟨⟨⟨HeapType.Abstract⟩⟩, TableInit.RefNull⟩, ⟨⟨⟨HeapType.Abstract⟩⟩, TableInit.RefNull⟩],
    first_func := false,
    defined_funcs := [⟨0, [], [Operator.TableGet 1, Operator.End]⟩],
    sections := [Section.raw 1 [9], Section.Function, Section.Table, Section.Code] }

/-- The live sets for `st1b` seeded with function 0. -/
def all1b : Uses := { Uses.empty with live_types := [0], live_funcs := [0], live_tables := [1] }

/-- A one-function module used to exercise the closure theorem. -/
def st2 : ParseState :=
  { ParseState.init with
    types := [CompositeInnerType.Func ⟨[], []⟩],
    func_types := [0],
    first_func := false,
    defined_funcs := [⟨0, [], [Operator.Nop, Operator.End]⟩],
    sections := [Section.raw 1 [2], Section.Function, Section.Code] }

/-- The live sets after running the worklist on `st2` seeded with
function 0. -/
def all2 : Uses := { Uses.empty with live_types := [0], live_funcs := [0] }

/-- A module with exactly one defined function (global index 0) and no
imports, used to select the out-of-range function index 3. -/
def st3 : ParseState :=
  { ParseState.init with
    types := [CompositeInnerType.Func ⟨[], []⟩],
    func_types := [0],
    first_func := false,
    defined_funcs := [⟨0, [], [Operator.End]⟩],
    sections := [Section.raw 1 [3], Section.Function, Section.Code] }

/-- A module with one type and one imported function.  Selecting the
imported function keeps no type alive (the import arm of the worklist
tracks no type, per the source's `TODO`), so a faithful filter would emit
no type at all. -/
def payloads4 : List Payload :=
  [Payload.TypeSection [7, 7, 7] [[CompositeInnerType.Func ⟨[], []⟩]],
   Payload.ImportSection [⟨"m", "f", TypeRef.Func 0⟩]]

/-- The parse result of `payloads4`. -/
def st4 : ParseState :=
  { ParseState.init with
    types := [CompositeInnerType.Func ⟨[], []⟩],
    num_imported_functions := 1,
    func_types := [0],
    imports := [⟨"m", "f", TypeRef.Func 0⟩],
    sections := [Section.raw 1 [7, 7, 7], Section.Import] }

/-- The live sets for `st4` seeded with function 0: no live types. -/
def all4 : Uses := { Uses.empty with live_funcs := [0] }

/-- A module whose single function has one local and a nonempty body. -/
def payloads5 : List Payload :=
  [Payload.TypeSection [4] [[CompositeInnerType.Func ⟨[], []⟩]],
   Payload.FunctionSection [0],
   Payload.CodeSectionStart,
   Payload.CodeSectionEntry [(1, ValType.I32)] [Operator.LocalGet 0, Operator.End]]

/-- The parse result of `payloads5`. -/
def st5 : ParseState :=
  { ParseState.init with
    types := [CompositeInnerType.Func ⟨[], []⟩],
    func_types := [0],
    first_func := false,
    defined_funcs := [⟨0, [(1, ValType.I32)], [Operator.LocalGet 0, Operator.End]⟩],
    sections := [Section.raw 1 [4], Section.Function, Section.Code] }

/-- The live sets for `st5` seeded with function 0. -/
def all5 : Uses := { Uses.empty with live_types := [0], live_funcs := [0] }

/-- A two-function module whose start function is function 1. -/
def payloads6 : List Payload :=
  [Payload.TypeSection [6] [[CompositeInnerType.Func ⟨[], []⟩]],
   Payload.FunctionSection [0, 0],
   Payload.StartSection 1,
   Payload.CodeSectionStart,
   Payload.CodeSectionEntry [] [Operator.End],
   Payload.CodeSectionEntry [] [Operator.End]]

/-- The parse result of `payloads6`. -/
def st6 : ParseState :=
  { ParseState.init with
    types := [CompositeInnerType.Func ⟨[], []⟩],
    func_types := [0, 0],
    current_func := 1,
    first_func := false,
    start_idx := some 1,
    defined_funcs := [⟨0, [], [Operator.End]⟩, ⟨0, [], [Operator.End]⟩],
    sections := [Section.raw 1 [6], Section.Function, Section.Start, Section.Code] }

/-- The live sets for `st6` seeded with function 1. -/
def all6 : Uses := { Uses.empty with live_types := [0], live_funcs := [1] }

/-- A one-function module exporting that function under the name `e`. -/
def payloads7 : List Payload :=
  [Payload.TypeSection [5] [[CompositeInnerType.Func ⟨[], []⟩]],
   Payload.FunctionSection [0],
   Payload.ExportSection [⟨"e", ExternalKind.Func, 0⟩],
   Payload.CodeSectionStart,
   Payload.CodeSectionEntry [] [Operator.End]]

/-- The parse result of `payloads7`. -/
def st7 : ParseState :=
  { ParseState.init with
    types := [CompositeInnerType.Func ⟨[], []⟩],
    func_types := [0],
    first_func := false,
    exports := [⟨"e", ExternalKind.Func, 0⟩],
    defined_funcs := [⟨0, [], [Operator.End]⟩],
    sections := [Section.raw 1 [5], Section.Function, Section.Export, Section.Code] }

/-- The live sets for `st7` seeded with function 0. -/
def all7 : Uses := { Uses.empty with live_types := [0], live_funcs := [0] }

/-- A module with two kept custom sections and one `name` custom section
interleaved with a type section. -/
def payloads8 : List Payload :=
  [Payload.CustomSection "keep1" [1],
   Payload.TypeSection [2] [[CompositeInnerType.Func ⟨[], []⟩]],
   Payload.CustomSection "name" [3],
   Payload.CustomSection "keep2" [4]]

/-- The parse result of `payloads8`. -/
def st8 : ParseState :=
  { ParseState.init with
    types := [CompositeInnerType.Func ⟨[], []⟩],
    sections := [Section.raw 0 [1], Section.raw 1 [2], Section.raw 0 [4]] }

/-- A one-function module used to exercise the completion theorem. -/
def st10 : ParseState :=
  { ParseState.init with
    types := [CompositeInnerType.Func ⟨[], []⟩],
    func_types := [0],
    first_func := false,
    defined_funcs := [⟨0, [], [Operator.End]⟩],
    sections := [Section.raw 1 [10], Section.Function, Section.Code] }

/-- A module whose only type is a continuation type and whose function 0
has that type: selecting function 0 reaches only the function and type
spaces, yet the driver hits a `todo!()`. -/
def st10x : ParseState :=
  { ParseState.init with
    types := [CompositeInnerType.Cont],
    func_types := [0],
    first_func := false,
    defined_funcs := [⟨0, [], []⟩] }

/-! ## Theorems -/

/-! ### Sorted deduplicated lists -/

theorem mem_dedupAdj (a : Nat) : ∀ l : List Nat, a ∈ dedupAdj l ↔ a ∈ l := by
  intro l
  induction l with
  | nil => simp [dedupAdj]
  | cons x xs ih =>
    match xs, ih with
    | [], _ => simp [dedupAdj]
    | y :: ys, ih =>
      by_cases h : x = y
      · subst h
        have e : dedupAdj (x :: x :: ys) = dedupAdj (x :: ys) := by
          simp [dedupAdj]
        rw [e, ih]
        simp [List.mem_cons]
      · have e : dedupAdj (x :: y :: ys) = x :: dedupAdj (y :: ys) := by
          simp [dedupAdj, h]
        rw [e]
        simp [List.mem_cons, ih]

theorem mem_sortDedup (a : Nat) (l : List Nat) : a ∈ sortDedup l ↔ a ∈ l := by
  rw [sortDedup, mem_dedupAdj]
  exact (List.perm_insertionSort _ l).mem_iff

theorem sorted_dedupAdj : ∀ l : List Nat, l.Sorted (· ≤ ·) → (dedupAdj l).Sorted (· < ·) := by
  intro l
  induction l with
  | nil => intro _; simp [dedupAdj]
  | cons x xs ih =>
    match xs, ih with
    | [], _ => intro _; simp [dedupAdj]
    | y :: ys, ih =>
      intro hs
      have hxy : x ≤ y := (List.sorted_cons.mp hs).1 y (List.mem_cons_self _ _)
      have hs' : (y :: ys).Sorted (· ≤ ·) := (List.sorted_cons.mp hs).2
      by_cases h : x = y
      · have e : dedupAdj (x :: y :: ys) = dedupAdj (y :: ys) := by
          simp [dedupAdj, h]
        rw [e]; exact ih hs'
      · have hlt : x < y := lt_of_le_of_ne hxy h
        have e : dedupAdj (x :: y :: ys) = x :: dedupAdj (y :: ys) := by
          simp [dedupAdj, h]
        rw [e]
        refine List.sorted_cons.mpr ⟨?_, ih hs'⟩
        intro b hb
        rw [mem_dedupAdj] at hb
        rcases List.mem_cons.mp hb with rfl | hb
        · exact hlt
        · exact lt_of_lt_of_le hlt ((List.sorted_cons.mp hs').1 b hb)

theorem sorted_sortDedup (l : List Nat) : (sortDedup l).Sorted (· < ·) :=
  sorted_dedupAdj _ (List.sorted_insertionSort _ l)

theorem nodup_sortDedup (l : List Nat) : (sortDedup l).Nodup :=
  (sorted_sortDedup l).nodup

theorem mem_append_and_dedup (a : Nat) (v o : List Nat) :
    a ∈ Uses.append_and_dedup v o ↔ a ∈ v ∨ a ∈ o := by
  rw [Uses.append_and_dedup, mem_sortDedup, List.mem_append]

/-! ### Membership facts about `Uses` -/

theorem memUses_merge (w : WorkItem) (a b : Uses) :
    memUses w (a.merge b) ↔ memUses w a ∨ memUses w b := by
  cases w <;> simp [memUses, Uses.merge, mem_append_and_dedup]

theorem not_memUses_empty (w : WorkItem) : ¬ memUses w Uses.empty := by
  cases w <;> simp [memUses, Uses.empty]

theorem merge_nodup (a b : Uses) : UsesNodup (a.merge b) := by
  refine ⟨?_, ?_, ?_, ?_, ?_, ?_, ?_, ?_⟩ <;>
    exact nodup_sortDedup _

theorem pushNew_complete (all_uses new_uses : Uses) (w : WorkItem)
    (hmem : memUses w new_uses) (hnot : ¬ memUses w all_uses) :
    w ∈ pushNew all_uses new_uses := by
  cases w <;>
    simp only [memUses] at hmem hnot <;>
    simp [pushNew, List.mem_append, List.mem_map, List.mem_filter] <;>
    tauto

theorem pushNew_sound (all_uses new_uses : Uses) (w : WorkItem)
    (hw : w ∈ pushNew all_uses new_uses) :
    memUses w new_uses ∧ ¬ memUses w all_uses := by
  cases w <;>
    simp only [memUses] <;>
    simp [pushNew, List.mem_append, List.mem_map, List.mem_filter] at hw <;>
    tauto

theorem usesSubset_merge_right (u a b : Uses) (h : usesSubset u a) :
    usesSubset u (a.merge b) := fun w hw => (memUses_merge w a b).mpr (Or.inl (h w hw))

theorem usesSubset_merge_self (a b : Uses) : usesSubset b (a.merge b) :=
  fun w hw => (memUses_merge w a b).mpr (Or.inr hw)

/-! ### Closure of the worklist fixed point (claim C2) -/

/-- Invariant step for the worklist loop: if every item already recorded in
`all_uses` is either still queued or has had its uses folded into
`all_uses`, then the final `all_uses` of a normal termination is closed
under `computeUses`. -/
theorem runWorklist_closure_inv (st : ParseState) :
    ∀ (fuel : Nat) (queue : List WorkItem) (all_uses final : Uses),
    (∀ w, memUses w all_uses →
      w ∈ queue ∨ ∃ u, computeUses st w = .ok u ∧ usesSubset u all_uses) →
    runWorklist st fuel queue all_uses = some (.ok final) →
    ∀ w, memUses w final → ∀ u, computeUses st w = .ok u → usesSubset u final := by
  intro fuel
  induction fuel with
  | zero => intro queue all_uses final _ hrun; simp [runWorklist] at hrun
  | succ n ih =>
    intro queue all_uses final hinv hrun
    match queue with
    | [] =>
      simp only [runWorklist, Option.some.injEq] at hrun
      obtain rfl : all_uses = final := by
        cases hrun
        rfl
      intro w hw u hu
      rcases hinv w hw with hfalse | ⟨u', hu', hsub⟩
      · exact absurd hfalse (List.not_mem_nil w)
      · rw [hu] at hu'
        cases hu'
        exact hsub
    | work :: rest =>
      simp only [runWorklist] at hrun
      rcases hcu : computeUses st work with e | new_uses
      · rw [hcu] at hrun; exact absurd hrun (by simp)
      · rw [hcu] at hrun
        refine ih (rest ++ pushNew all_uses new_uses) (all_uses.merge new_uses) final ?_ hrun
        intro w hw
        rcases (memUses_merge w all_uses new_uses).mp hw with hall | hnew
        · rcases hinv w hall with hq | ⟨u, hu, hsub⟩
          · rcases List.mem_cons.mp hq with rfl | hrest
            · exact Or.inr ⟨new_uses, hcu, usesSubset_merge_self all_uses new_uses⟩
            · exact Or.inl (List.mem_append_left _ hrest)
          · exact Or.inr ⟨u, hu, usesSubset_merge_right u all_uses new_uses hsub⟩
        · by_cases hall : memUses w all_uses
          · rcases hinv w hall with hq | ⟨u, hu, hsub⟩
            · rcases List.mem_cons.mp hq with rfl | hrest
              · exact Or.inr ⟨new_uses, hcu, usesSubset_merge_self all_uses new_uses⟩
              · exact Or.inl (List.mem_append_left _ hrest)
            · exact Or.inr ⟨u, hu, usesSubset_merge_right u all_uses new_uses hsub⟩
          · exact Or.inl (List.mem_append_right _ (pushNew_complete all_uses new_uses w hnew hall))

/-- Claim C2: whenever the reachability worklist loop terminates normally
(without panicking and without running out of fuel), the resulting live
sets are closed under the program's direct-use computation: every item `y`
in the direct uses the loop computes for a recorded item `x` is itself
recorded in `all_uses`. -/
theorem c2_worklist_closure (st : ParseState) (seeds : List Nat) (fuel : Nat) (final : Uses)
    (hrun : runWorklist st fuel (seeds.map WorkItem.Func) Uses.empty = some (.ok final)) :
    ∀ x, memUses x final → ∀ u, computeUses st x = .ok u →
      ∀ y, memUses y u → memUses y final := by
  intro x hx u hu
  exact runWorklist_closure_inv st fuel (seeds.map WorkItem.Func) Uses.empty final
    (fun w hw => absurd hw (not_memUses_empty w)) hrun x hx u hu

/-- Witness for C2: on the concrete one-function module `st2` the loop
terminates with live sets `all2`; applying the closure theorem to the
processed item `Func 0` (whose computed uses mention type 0) shows type 0
is recorded. -/
theorem c2_worklist_closure_witness : memUses (WorkItem.Type 0) all2 :=
  c2_worklist_closure st2 [0] 5 all2 (by rfl) (WorkItem.Func 0) (by decide)
    all2 (by rfl) (WorkItem.Type 0) (by decide)

/-! ### Out-of-range selections panic (claim C3) -/

/-- Claim C3 evaluated on the code: on a module whose only index space
entries are type 0 and defined function 0 (no imports), selecting the
out-of-range function index 3 makes the very first worklist iteration
index `defined_funcs[3]` and panic, for every fuel.  Nothing is reported
and no output is produced: the claimed skip-and-continue behaviour does
not exist in the code. -/
theorem c3_out_of_range_selection_panics (fuel : Nat) :
    runWorklist st3 (fuel + 1) ([3].map WorkItem.Func) Uses.empty =
      some (.error Abort.outOfBounds) := by
  rfl

/-! ### The relocation map (claim C1) -/

/-- Claim C1 evaluated on the code: the first relocation loop iterates the
live TABLE list while computing positions inside the live TYPE list
(src/main.rs line 319).  On module `st1` (one live type, no live tables)
the finished map has no `Type` entry at all, so live type 0 is assigned no
new index, contradicting the claim for the type space; and on module
`st1b` (live table 1, live types `[0]`) the loop panics outright because
table index 1 has no position inside the live type list.  The function
space, by contrast, is mapped correctly. -/
theorem c1_type_relocations_use_table_list :
    runWorklist st1 5 ([0].map WorkItem.Func) Uses.empty = some (.ok all1) ∧
    0 ∈ all1.live_types ∧
    buildRelocations all1 = some [(Relocation.Func 0, 0)] ∧
    relocGet [(Relocation.Func 0, 0)] (Relocation.Type 0) = none ∧
    relocGet [(Relocation.Func 0, 0)] (Relocation.Func 0) = some 0 ∧
    runWorklist st1b 6 ([0].map WorkItem.Func) Uses.empty = some (.ok all1b) ∧
    1 ∈ all1b.live_tables ∧
    buildRelocations all1b = none := by
  refine ⟨by rfl, by decide, by rfl, by rfl, by rfl, by rfl, by decide, by rfl⟩

/-! ### Structure of the decoder bridge -/

theorem processImport_sections (st : ParseState) (imp : Import) :
    (processImport st imp).sections = st.sections := by
  cases imp with
  | mk m n ty => cases ty <;> rfl

theorem foldl_processImport_sections (entries : List Import) :
    ∀ st : ParseState, (entries.foldl processImport st).sections = st.sections := by
  induction entries with
  | nil => intro st; rfl
  | cons e rest ih =>
    intro st
    rw [List.foldl_cons, ih, processImport_sections]

theorem processPayload_sections (st st' : ParseState) (p : Payload)
    (h : processPayload st p = some st') :
    st'.sections = st.sections ++ (sectionOfPayload p).toList := by
  cases p with
  | TypeSection raw rec_groups =>
    simp only [processPayload] at h; cases h; simp [sectionOfPayload]
  | ImportSection entries =>
    simp only [processPayload] at h
    cases h
    rw [foldl_processImport_sections]
    simp [sectionOfPayload]
  | FunctionSection tys =>
    simp only [processPayload] at h; cases h; simp [sectionOfPayload]
  | TableSection tables =>
    simp only [processPayload] at h; cases h; simp [sectionOfPayload]
  | MemorySection mems =>
    simp only [processPayload] at h; cases h; simp [sectionOfPayload]
  | TagSection raw =>
    simp only [processPayload] at h; cases h; simp [sectionOfPayload]
  | GlobalSection globals =>
    simp only [processPayload] at h; cases h; simp [sectionOfPayload]
  | ExportSection entries =>
    simp only [processPayload] at h; cases h; simp [sectionOfPayload]
  | StartSection func =>
    simp only [processPayload] at h; cases h; simp [sectionOfPayload]
  | ElementSection entries =>
    simp only [processPayload] at h; cases h; simp [sectionOfPayload]
  | DataCountSection raw =>
    simp only [processPayload] at h; cases h; simp [sectionOfPayload]
  | DataSection entries =>
    simp only [processPayload] at h; cases h; simp [sectionOfPayload]
  | CodeSectionStart =>
    simp only [processPayload] at h; cases h; simp [sectionOfPayload]
  | CodeSectionEntry locals instructions =>
    simp only [processPayload] at h
    split at h
    · exact Option.noConfusion h
    · cases h
      simp only [sectionOfPayload, Option.toList_none, List.append_nil]
      split <;> rfl
  | CustomSection name raw =>
    simp only [processPayload] at h
    by_cases hn : name = "name"
    · rw [if_pos hn] at h
      cases h
      simp [sectionOfPayload, hn]
    · rw [if_neg hn] at h
      cases h
      simp [sectionOfPayload, hn]
  | Other =>
    simp only [processPayload] at h; cases h; simp [sectionOfPayload]

theorem parse_sections_aux :
    ∀ (payloads : List Payload) (st0 st : ParseState),
    payloads.foldlM processPayload st0 = some st →
    st.sections = st0.sections ++ payloads.filterMap sectionOfPayload := by
  intro payloads
  induction payloads with
  | nil =>
    intro st0 st h
    simp only [List.foldlM_nil] at h
    cases h
    simp
  | cons p rest ih =>
    intro st0 st h
    rw [List.foldlM_cons] at h
    rcases hp : processPayload st0 p with _ | st1
    · rw [hp] at h; exact Option.noConfusion h
    · rw [hp] at h
      simp only [Option.bind_eq_bind, Option.some_bind] at h
      have hrest := ih st1 st h
      rw [hrest, processPayload_sections st0 st1 p hp, List.filterMap_cons]
      cases sectionOfPayload p <;> simp

/-- The recorded section list mirrors the input payload order: one entry
per recognized section event, `name` custom sections dropped. -/
theorem parse_sections (payloads : List Payload) (st : ParseState)
    (h : parseAll payloads = some st) :
    st.sections = payloads.filterMap sectionOfPayload := by
  have := parse_sections_aux payloads ParseState.init st h
  simpa [ParseState.init] using this

/-! ### Structure of the emitter -/

theorem emitSection_raws (st : ParseState) (all_uses : Uses)
    (relocations : List (Relocation × Nat)) (s : Section) (part : List OutSection)
    (h : emitSection st all_uses relocations s = some part) :
    part.filterMap outRaw = (secRaw s).toList := by
  cases s with
  | Passthrough sec =>
    simp only [emitSection] at h; cases h; simp [outRaw, secRaw]
  | Import =>
    simp only [emitSection] at h; cases h; simp [outRaw, secRaw]
  | Function =>
    simp only [emitSection] at h
    rcases hf : emitFunctionList st relocations with _ | l <;> rw [hf] at h
    · exact Option.noConfusion h
    · cases h; simp [outRaw, secRaw]
  | Table =>
    simp only [emitSection] at h; cases h; simp [outRaw, secRaw]
  | Memory =>
    simp only [emitSection] at h; exact Option.noConfusion h
  | Global =>
    simp only [emitSection] at h; cases h; simp [outRaw, secRaw]
  | Export =>
    simp only [emitSection] at h; cases h; simp [outRaw, secRaw]
  | Start =>
    simp only [emitSection] at h
    split at h
    · split at h
      · cases h; simp [outRaw, secRaw]
      · cases h; simp [secRaw]
    · cases h; simp [secRaw]
  | Element =>
    simp only [emitSection] at h
    rcases he : emitElementList st relocations with _ | l <;> rw [he] at h
    · exact Option.noConfusion h
    · cases h; simp [outRaw, secRaw]
  | Code =>
    simp only [emitSection] at h; cases h; simp [outRaw, secRaw]
  | Data =>
    simp only [emitSection] at h; cases h; simp [outRaw, secRaw]
  | Tag =>
    simp only [emitSection] at h; exact Option.noConfusion h

theorem emitSection_code_mem (st : ParseState) (all_uses : Uses)
    (relocations : List (Relocation × Nat)) (s : Section) (part : List OutSection)
    (entries : List OutFunc)
    (h : emitSection st all_uses relocations s = some part)
    (hmem : OutSection.Code entries ∈ part) :
    entries = emitCodeList st all_uses := by
  cases s with
  | Passthrough sec =>
    simp only [emitSection] at h; cases h; simp at hmem
  | Import =>
    simp only [emitSection] at h; cases h; simp at hmem
  | Function =>
    simp only [emitSection] at h
    rcases hf : emitFunctionList st relocations with _ | l <;> rw [hf] at h
    · exact Option.noConfusion h
    · cases h; simp at hmem
  | Table =>
    simp only [emitSection] at h; cases h; simp at hmem
  | Memory =>
    simp only [emitSection] at h; exact Option.noConfusion h
  | Global =>
    simp only [emitSection] at h; cases h; simp at hmem
  | Export =>
    simp only [emitSection] at h; cases h; simp at hmem
  | Start =>
    simp only [emitSection] at h
    split at h
    · split at h
      · cases h; simp at hmem
      · cases h; simp at hmem
    · cases h; simp at hmem
  | Element =>
    simp only [emitSection] at h
    rcases he : emitElementList st relocations with _ | l <;> rw [he] at h
    · exact Option.noConfusion h
    · cases h; simp at hmem
  | Code =>
    simp only [emitSection] at h
    cases h
    rcases List.mem_singleton.mp hmem with hc
    exact (OutSection.Code.injEq _ _).mp hc.symm |>.symm
  | Data =>
    simp only [emitSection] at h; cases h; simp at hmem
  | Tag =>
    simp only [emitSection] at h; exact Option.noConfusion h

theorem emitSection_export_mem (st : ParseState) (all_uses : Uses)
    (relocations : List (Relocation × Nat)) (s : Section) (part : List OutSection)
    (es : List OutExport)
    (h : emitSection st all_uses relocations s = some part)
    (hmem : OutSection.Export es ∈ part) :
    es = emitExportList st relocations := by
  cases s with
  | Passthrough sec =>
    simp only [emitSection] at h; cases h; simp at hmem
  | Import =>
    simp only [emitSection] at h; cases h; simp at hmem
  | Function =>
    simp only [emitSection] at h
    rcases hf : emitFunctionList st relocations with _ | l <;> rw [hf] at h
    · exact Option.noConfusion h
    · cases h; simp at hmem
  | Table =>
    simp only [emitSection] at h; cases h; simp at hmem
  | Memory =>
    simp only [emitSection] at h; exact Option.noConfusion h
  | Global =>
    simp only [emitSection] at h; cases h; simp at hmem
  | Export =>
    simp only [emitSection] at h
    cases h
    rcases List.mem_singleton.mp hmem with hc
    exact (OutSection.Export.injEq _ _).mp hc.symm |>.symm
  | Start =>
    simp only [emitSection] at h
    split at h
    · split at h
      · cases h; simp at hmem
      · cases h; simp at hmem
    · cases h; simp at hmem
  | Element =>
    simp only [emitSection] at h
    rcases he : emitElementList st relocations with _ | l <;> rw [he] at h
    · exact Option.noConfusion h
    · cases h; simp at hmem
  | Code =>
    simp only [emitSection] at h; cases h; simp at hmem
  | Data =>
    simp only [emitSection] at h; cases h; simp at hmem
  | Tag =>
    simp only [emitSection] at h; exact Option.noConfusion h

theorem mapM_mem_exists {α β : Type} {f : α → Option β} :
    ∀ {l : List α} {res : List β}, l.mapM f = some res →
    ∀ b ∈ res, ∃ a ∈ l, f a = some b := by
  intro l
  induction l with
  | nil =>
    intro res h b hb
    simp only [List.mapM_nil, Option.pure_def, Option.some.injEq] at h
    subst h
    simp at hb
  | cons a t ih =>
    intro res h b hb
    rw [List.mapM_cons] at h
    rcases ha : f a with _ | b0 <;> rw [ha] at h
    · simp at h
    · rcases ht : t.mapM f with _ | res' <;> rw [ht] at h
      · simp at h
      · simp only [Option.pure_def, Option.bind_eq_bind, Option.some_bind,
          Option.some.injEq] at h
        subst h
        rcases List.mem_cons.mp hb with rfl | hb'
        · exact ⟨a, List.mem_cons_self _ _, ha⟩
        · obtain ⟨a', ha', hfa'⟩ := ih ht b hb'
          exact ⟨a', List.mem_cons_of_mem _ ha', hfa'⟩

theorem mapM_emit_raws (st : ParseState) (all_uses : Uses)
    (relocations : List (Relocation × Nat)) :
    ∀ (secs : List Section) (parts : List (List OutSection)),
    secs.mapM (emitSection st all_uses relocations) = some parts →
    parts.flatten.filterMap outRaw = secs.filterMap secRaw := by
  intro secs
  induction secs with
  | nil =>
    intro parts h
    simp only [List.mapM_nil, Option.pure_def, Option.some.injEq] at h
    subst h
    simp
  | cons s rest ih =>
    intro parts h
    rw [List.mapM_cons] at h
    rcases hp : emitSection st all_uses relocations s with _ | part <;> rw [hp] at h
    · simp at h
    · rcases hr : rest.mapM (emitSection st all_uses relocations) with _ | parts' <;>
        rw [hr] at h
      · simp at h
      · simp only [Option.pure_def, Option.bind_eq_bind, Option.some_bind,
          Option.some.injEq] at h
        subst h
        rw [List.flatten_cons, List.filterMap_append,
          emitSection_raws st all_uses relocations s part hp, ih parts' hr,
          List.filterMap_cons]
        cases secRaw s <;> simp

/-- Every raw (passthrough) section of the output, in order, is a raw
section recorded by the bridge, and conversely. -/
theorem emit_raws (st : ParseState) (all_uses : Uses)
    (relocations : List (Relocation × Nat)) (out : List OutSection)
    (h : emit st all_uses relocations = some out) :
    out.filterMap outRaw = st.sections.filterMap secRaw := by
  unfold emit at h
  rcases hm : st.sections.mapM (emitSection st all_uses relocations) with _ | parts <;>
    rw [hm] at h
  · exact Option.noConfusion h
  · cases h
    exact mapM_emit_raws st all_uses relocations st.sections parts hm

/-- Every code section of the output carries exactly `emitCodeList`. -/
theorem emit_code_sections (st : ParseState) (all_uses : Uses)
    (relocations : List (Relocation × Nat)) (out : List OutSection)
    (entries : List OutFunc)
    (h : emit st all_uses relocations = some out)
    (hmem : OutSection.Code entries ∈ out) :
    entries = emitCodeList st all_uses := by
  unfold emit at h
  rcases hm : st.sections.mapM (emitSection st all_uses relocations) with _ | parts <;>
    rw [hm] at h
  · exact Option.noConfusion h
  · cases h
    obtain ⟨part, hpart, hin⟩ := List.mem_flatten.mp hmem
    obtain ⟨s, _, hs⟩ := mapM_mem_exists hm part hpart
    exact emitSection_code_mem st all_uses relocations s part entries hs hin

/-- Every export section of the output carries exactly `emitExportList`. -/
theorem emit_export_sections (st : ParseState) (all_uses : Uses)
    (relocations : List (Relocation × Nat)) (out : List OutSection)
    (es : List OutExport)
    (h : emit st all_uses relocations = some out)
    (hmem : OutSection.Export es ∈ out) :
    es = emitExportList st relocations := by
  unfold emit at h
  rcases hm : st.sections.mapM (emitSection st all_uses relocations) with _ | parts <;>
    rw [hm] at h
  · exact Option.noConfusion h
  · cases h
    obtain ⟨part, hpart, hin⟩ := List.mem_flatten.mp hmem
    obtain ⟨s, _, hs⟩ := mapM_mem_exists hm part hpart
    exact emitSection_export_mem st all_uses relocations s part es hs hin

/-! ### The type section is passed through unfiltered (claim C4) -/

/-- Claim C4 counterexample: selecting only the imported function of
`payloads4` leaves NO live type (`all4.live_types = []`), yet the output
still contains the input's type section `Raw 1 [7, 7, 7]` byte for byte —
the section that encodes the module's one (dead) type.  Under the claim,
a rec group with no live member is skipped, so no type section content
should have been emitted at all. -/
theorem c4_counterexample :
    parseAll payloads4 = some st4 ∧
    runWorklist st4 4 ([0].map WorkItem.Func) Uses.empty = some (.ok all4) ∧
    all4.live_types = [] ∧
    buildRelocations all4 = some [(Relocation.Func 0, 0)] ∧
    emit st4 all4 [(Relocation.Func 0, 0)] =
      some [OutSection.Raw 1 [7, 7, 7],
            OutSection.Import [⟨"m", "f", EntityType.Function 0⟩]] := by
  refine ⟨by rfl, by rfl, by rfl, by rfl, by rfl⟩

/-- Claim C4 as amended: the emitter never filters the type section.  The
raw sections of id 1 in the output are exactly the input's type-section
byte ranges, unchanged and in order, whatever the live sets and the
relocation map are. -/
theorem c4_type_section_passthrough (payloads : List Payload) (st : ParseState)
    (all_uses : Uses) (relocations : List (Relocation × Nat)) (out : List OutSection)
    (hp : parseAll payloads = some st)
    (he : emit st all_uses relocations = some out) :
    out.filterMap (fun s => (outRaw s).bind (selectId 1)) =
      payloads.filterMap typeSectionRaw := by
  have h1 : out.filterMap outRaw = st.sections.filterMap secRaw :=
    emit_raws _ _ _ _ he
  have h2 : st.sections = payloads.filterMap sectionOfPayload := parse_sections _ _ hp
  calc out.filterMap (fun s => (outRaw s).bind (selectId 1))
      = (out.filterMap outRaw).filterMap (selectId 1) :=
        (List.filterMap_filterMap _ _ _).symm
    _ = (st.sections.filterMap secRaw).filterMap (selectId 1) := by rw [h1]
    _ = st.sections.filterMap (fun s => (secRaw s).bind (selectId 1)) :=
        List.filterMap_filterMap _ _ _
    _ = (payloads.filterMap sectionOfPayload).filterMap
          (fun s => (secRaw s).bind (selectId 1)) := by rw [h2]
    _ = payloads.filterMap
          (fun p => (sectionOfPayload p).bind (fun s => (secRaw s).bind (selectId 1))) :=
        List.filterMap_filterMap _ _ _
    _ = payloads.filterMap typeSectionRaw := by
        congr 1
        funext p
        cases p with
        | CustomSection name raw =>
          by_cases hn : name = "name" <;>
            simp [sectionOfPayload, hn, Section.raw, secRaw, selectId, typeSectionRaw]
        | _ =>
          simp [sectionOfPayload, Section.raw, secRaw, selectId, typeSectionRaw]

/-- Witness for C4 (amended): the passthrough equation evaluated on
`payloads4`. -/
theorem c4_type_section_passthrough_witness :
    ([OutSection.Raw 1 [7, 7, 7], OutSection.Import [⟨"m", "f", EntityType.Function 0⟩]]
      : List OutSection).filterMap (fun s => (outRaw s).bind (selectId 1)) =
      payloads4.filterMap typeSectionRaw :=
  c4_type_section_passthrough payloads4 st4 all4 [(Relocation.Func 0, 0)] _ (by rfl) (by rfl)

/-! ### Code-section entries are emptied (claim C5) -/

theorem filterMap_ite_map {α β : Type} (p : α → Prop) [DecidablePred p] (c : β) :
    ∀ l : List α, l.filterMap (fun a => if p a then some c else none)
      = (l.filter (fun a => decide (p a))).map (fun _ => c) := by
  intro l
  induction l with
  | nil => simp
  | cons a t ih => by_cases h : p a <;> simp [h, ih]

theorem emitCodeList_eq (st : ParseState) (all_uses : Uses) :
    emitCodeList st all_uses =
      ((List.range st.defined_funcs.length).filter
        (fun i => decide ((i + st.num_imported_functions) ∈ all_uses.live_funcs))).map
        (fun _ => (⟨[], [EInstr.End]⟩ : OutFunc)) := by
  unfold emitCodeList
  exact filterMap_ite_map _ _ _

/-- Claim C5 counterexample: on `payloads5` the single defined function has
one local declaration and a two-operator body, and it is live; yet the
emitted code-section entry has no locals and the body `[end]`.  The claimed
"original locals reencoded and instructions reencoded" entry would have
kept the declaration `(1, i32)` (reencoding value types preserves the run
lengths) — the emitted entry differs from it. -/
theorem c5_counterexample :
    parseAll payloads5 = some st5 ∧
    runWorklist st5 5 ([0].map WorkItem.Func) Uses.empty = some (.ok all5) ∧
    buildRelocations all5 = some [(Relocation.Func 0, 0)] ∧
    emit st5 all5 [(Relocation.Func 0, 0)] =
      some [OutSection.Raw 1 [4], OutSection.Function [0],
            OutSection.Code [⟨[], [EInstr.End]⟩]] ∧
    st5.defined_funcs.map Func.locals = [[(1, ValType.I32)]] ∧
    ([] : List (Nat × ValType)) ≠ [(1, ValType.I32)] := by
  refine ⟨by rfl, by rfl, by rfl, by rfl, by rfl, by decide⟩

/-- Claim C5 as amended: for each live defined function the emitter writes
exactly one code-section entry, and every entry is empty — no locals and a
single `end` instruction; the function's original locals and body are
dropped. -/
theorem c5_code_section_entries (st : ParseState) (all_uses : Uses)
    (relocations : List (Relocation × Nat)) (out : List OutSection)
    (entries : List OutFunc)
    (he : emit st all_uses relocations = some out)
    (hmem : OutSection.Code entries ∈ out) :
    entries.length = ((List.range st.defined_funcs.length).filter
      (fun i => decide ((i + st.num_imported_functions) ∈ all_uses.live_funcs))).length ∧
    ∀ e ∈ entries, e.locals = [] ∧ e.instructions = [EInstr.End] := by
  have heq : entries = emitCodeList st all_uses :=
    emit_code_sections st all_uses relocations out entries he hmem
  subst heq
  rw [emitCodeList_eq]
  refine ⟨by simp, ?_⟩
  intro e hein
  rcases List.mem_map.mp hein with ⟨i, _, rfl⟩
  exact ⟨rfl, rfl⟩

/-- Witness for C5 (amended): on `st5` the emitted code section has exactly
one (empty) entry, matching the one live defined function. -/
theorem c5_code_section_entries_witness :
    ([(⟨[], [EInstr.End]⟩ : OutFunc)]).length =
      ((List.range st5.defined_funcs.length).filter
        (fun i => decide ((i + st5.num_imported_functions) ∈ all5.live_funcs))).length :=
  (c5_code_section_entries st5 all5 [(Relocation.Func 0, 0)]
    [OutSection.Raw 1 [4], OutSection.Function [0], OutSection.Code [⟨[], [EInstr.End]⟩]]
    [⟨[], [EInstr.End]⟩] (by rfl)
    (List.mem_cons_of_mem _ (List.mem_cons_of_mem _ (List.mem_cons_self _ _)))).1

/-! ### The start section keeps the original index (claim C6) -/

/-- Claim C6 evaluated on the code: on `payloads6` the start function (old
index 1) is live and is relocated to new index 0, and the start section is
emitted — but it carries the ORIGINAL index 1, not the relocated index 0
(src/main.rs lines 490-498 check the relocation map yet write `idx`).  The
"emitted iff live" half of the claim holds; the "with its new index" half
is contradicted. -/
theorem c6_start_section_not_relocated :
    parseAll payloads6 = some st6 ∧
    runWorklist st6 5 ([1].map WorkItem.Func) Uses.empty = some (.ok all6) ∧
    buildRelocations all6 = some [(Relocation.Func 1, 0)] ∧
    relocGet [(Relocation.Func 1, 0)] (Relocation.Func 1) = some 0 ∧
    emit st6 all6 [(Relocation.Func 1, 0)] =
      some [OutSection.Raw 1 [6], OutSection.Function [0], OutSection.Start 1,
            OutSection.Code [⟨[], [EInstr.End]⟩]] := by
  refine ⟨by rfl, by rfl, by rfl, by rfl, by rfl⟩

/-! ### Exports: survivors only, no synthetic exports (claim C7) -/

/-- Claim C7 counterexample: on `payloads7` the user-selected function 0
survives, yet the output's export section contains exactly the original
export `e` and nothing named `isolated_func_0`: the program appends no
synthetic exports at all. -/
theorem c7_counterexample :
    parseAll payloads7 = some st7 ∧
    runWorklist st7 5 ([0].map WorkItem.Func) Uses.empty = some (.ok all7) ∧
    buildRelocations all7 = some [(Relocation.Func 0, 0)] ∧
    emit st7 all7 [(Relocation.Func 0, 0)] =
      some [OutSection.Raw 1 [5], OutSection.Function [0],
            OutSection.Export [⟨"e", ExternalKind.Func, 0⟩],
            OutSection.Code [⟨[], [EInstr.End]⟩]] ∧
    ([(⟨"e", ExternalKind.Func, 0⟩ : OutExport)]).map OutExport.name = ["e"] ∧
    "isolated_func_0" ∉ ["e"] := by
  refine ⟨by rfl, by rfl, by rfl, by rfl, by rfl, by decide⟩

/-- Claim C7 as amended: the output export section consists exactly of the
original exports whose target index is in the relocation map, carried over
with their original name and kind and the mapped index; nothing else — in
particular no synthetic `isolated_...` export — is ever added. -/
theorem c7_exports_are_surviving_originals (st : ParseState) (all_uses : Uses)
    (relocations : List (Relocation × Nat)) (out : List OutSection)
    (es : List OutExport)
    (he : emit st all_uses relocations = some out)
    (hmem : OutSection.Export es ∈ out) :
    (∀ e ∈ es, ∃ orig ∈ st.exports,
        orig.name = e.name ∧ orig.kind = e.kind ∧
        relocGet relocations (relocOfExport orig) = some e.index) ∧
    (∀ orig ∈ st.exports, ∀ n, relocGet relocations (relocOfExport orig) = some n →
        (⟨orig.name, orig.kind, n⟩ : OutExport) ∈ es) := by
  have heq : es = emitExportList st relocations :=
    emit_export_sections st all_uses relocations out es he hmem
  subst heq
  constructor
  · intro e he'
    unfold emitExportList at he'
    rcases List.mem_filterMap.mp he' with ⟨orig, ho, hmap⟩
    rcases hr : relocGet relocations (relocOfExport orig) with _ | n <;> rw [hr] at hmap
    · exact Option.noConfusion hmap
    · cases hmap
      exact ⟨orig, ho, rfl, rfl, hr⟩
  · intro orig ho n hr
    unfold emitExportList
    exact List.mem_filterMap.mpr ⟨orig, ho, by rw [hr]⟩

/-- Witness for C7 (amended): the surviving original export of `st7`
appears in the emitted export section with its mapped index. -/
theorem c7_exports_witness :
    (⟨"e", ExternalKind.Func, 0⟩ : OutExport) ∈
      [(⟨"e", ExternalKind.Func, 0⟩ : OutExport)] :=
  (c7_exports_are_surviving_originals st7 all7 [(Relocation.Func 0, 0)]
    [OutSection.Raw 1 [5], OutSection.Function [0],
     OutSection.Export [⟨"e", ExternalKind.Func, 0⟩],
     OutSection.Code [⟨[], [EInstr.End]⟩]]
    [⟨"e", ExternalKind.Func, 0⟩] (by rfl)
    (List.mem_cons_of_mem _ (List.mem_cons_of_mem _ (List.mem_cons_self _ _)))).2
    ⟨"e", ExternalKind.Func, 0⟩ (by decide) 0 (by rfl)

/-! ### Custom sections: `name` dropped, the rest byte-identical (claim C8) -/

/-- Claim C8: no `name` custom section ever reaches the output, and the
custom (id 0) raw sections of the output are exactly the input's non-`name`
custom sections, byte-identical and in order; moreover the recorded section
list — which the emitter walks front to back, emitting each section's
output in place — interleaves them with the known sections exactly as the
input payload stream did, so their order relative to the known sections is
preserved. -/
theorem c8_custom_passthrough (payloads : List Payload) (st : ParseState)
    (all_uses : Uses) (relocations : List (Relocation × Nat)) (out : List OutSection)
    (hp : parseAll payloads = some st)
    (he : emit st all_uses relocations = some out) :
    out.filterMap (fun s => (outRaw s).bind (selectId 0)) =
      payloads.filterMap keptCustomRaw ∧
    st.sections = payloads.filterMap sectionOfPayload := by
  have h2 : st.sections = payloads.filterMap sectionOfPayload := parse_sections _ _ hp
  refine ⟨?_, h2⟩
  have h1 : out.filterMap outRaw = st.sections.filterMap secRaw :=
    emit_raws _ _ _ _ he
  calc out.filterMap (fun s => (outRaw s).bind (selectId 0))
      = (out.filterMap outRaw).filterMap (selectId 0) :=
        (List.filterMap_filterMap _ _ _).symm
    _ = (st.sections.filterMap secRaw).filterMap (selectId 0) := by rw [h1]
    _ = st.sections.filterMap (fun s => (secRaw s).bind (selectId 0)) :=
        List.filterMap_filterMap _ _ _
    _ = (payloads.filterMap sectionOfPayload).filterMap
          (fun s => (secRaw s).bind (selectId 0)) := by rw [h2]
    _ = payloads.filterMap
          (fun p => (sectionOfPayload p).bind (fun s => (secRaw s).bind (selectId 0))) :=
        List.filterMap_filterMap _ _ _
    _ = payloads.filterMap keptCustomRaw := by
        congr 1
        funext p
        cases p with
        | CustomSection name raw =>
          by_cases hn : name = "name" <;>
            simp [sectionOfPayload, hn, Section.raw, secRaw, selectId, keptCustomRaw]
        | _ =>
          simp [sectionOfPayload, Section.raw, secRaw, selectId, keptCustomRaw]

/-- Witness for C8: on `payloads8` (customs `keep1`, `name`, `keep2`
interleaved with a type section) the emitted custom sections are exactly
`keep1` and `keep2`'s bytes, in order. -/
theorem c8_custom_passthrough_witness :
    ([OutSection.Raw 0 [1], OutSection.Raw 1 [2], OutSection.Raw 0 [4]]
      : List OutSection).filterMap (fun s => (outRaw s).bind (selectId 0)) =
      payloads8.filterMap keptCustomRaw ∧
    st8.sections = payloads8.filterMap sectionOfPayload :=
  c8_custom_passthrough payloads8 st8 Uses.empty [] _ (by rfl) (by rfl)

/-! ### The relocating reencoder's index rewriting (claim C9) -/

/-- Claim C9: for every index space and every old index `i`, the
`RelocatingReencoder` index function returns the relocation map's new index
for `i` when `i` is present in the map, and `i` unchanged when absent. -/
theorem c9_reencoder_indices (relocations : List (Relocation × Nat)) (i n : Nat) :
    (relocGet relocations (Relocation.Data i) = some n →
      RelocatingReencoder.data_index relocations i = n) ∧
    (relocGet relocations (Relocation.Data i) = none →
      RelocatingReencoder.data_index relocations i = i) ∧
    (relocGet relocations (Relocation.Elem i) = some n →
      RelocatingReencoder.element_index relocations i = n) ∧
    (relocGet relocations (Relocation.Elem i) = none →
      RelocatingReencoder.element_index relocations i = i) ∧
    (relocGet relocations (Relocation.Func i) = some n →
      RelocatingReencoder.function_index relocations i = n) ∧
    (relocGet relocations (Relocation.Func i) = none →
      RelocatingReencoder.function_index relocations i = i) ∧
    (relocGet relocations (Relocation.Global i) = some n →
      RelocatingReencoder.global_index relocations i = n) ∧
    (relocGet relocations (Relocation.Global i) = none →
      RelocatingReencoder.global_index relocations i = i) ∧
    (relocGet relocations (Relocation.Memory i) = some n →
      RelocatingReencoder.memory_index relocations i = n) ∧
    (relocGet relocations (Relocation.Memory i) = none →
      RelocatingReencoder.memory_index relocations i = i) ∧
    (relocGet relocations (Relocation.Table i) = some n →
      RelocatingReencoder.table_index relocations i = n) ∧
    (relocGet relocations (Relocation.Table i) = none →
      RelocatingReencoder.table_index relocations i = i) ∧
    (relocGet relocations (Relocation.Tag i) = some n →
      RelocatingReencoder.tag_index relocations i = n) ∧
    (relocGet relocations (Relocation.Tag i) = none →
      RelocatingReencoder.tag_index relocations i = i) ∧
    (relocGet relocations (Relocation.Type i) = some n →
      RelocatingReencoder.type_index relocations i = n) ∧
    (relocGet relocations (Relocation.Type i) = none →
      RelocatingReencoder.type_index relocations i = i) := by
  refine ⟨?_, ?_, ?_, ?_, ?_, ?_, ?_, ?_, ?_, ?_, ?_, ?_, ?_, ?_, ?_, ?_⟩ <;>
    intro h <;>
    simp [RelocatingReencoder.data_index, RelocatingReencoder.element_index,
      RelocatingReencoder.function_index, RelocatingReencoder.global_index,
      RelocatingReencoder.memory_index, RelocatingReencoder.table_index,
      RelocatingReencoder.tag_index, RelocatingReencoder.type_index,
      utils.data_index, utils.element_index, utils.function_index,
      utils.global_index, utils.memory_index, utils.table_index,
      utils.tag_index, utils.type_index, h]

/-- Witness for C9: with the one-entry map sending function 3 to 1, the
reencoder rewrites function index 3 to 1 and passes function index 2
through unchanged. -/
theorem c9_reencoder_indices_witness :
    RelocatingReencoder.function_index [(Relocation.Func 3, 1)] 3 = 1 ∧
    RelocatingReencoder.function_index [(Relocation.Func 3, 1)] 2 = 2 :=
  ⟨(c9_reencoder_indices [(Relocation.Func 3, 1)] 3 1).2.2.2.2.1 (by rfl),
   (c9_reencoder_indices [(Relocation.Func 3, 1)] 2 0).2.2.2.2.2.1 (by rfl)⟩

/-! ### Termination of the reachability driver (claim C10) -/

theorem memUses_single_func (y : WorkItem) (i : Nat) :
    memUses y (Uses.single_func i) ↔ y = WorkItem.Func i := by
  cases y <;> simp [memUses, Uses.single_func, Uses.empty]

theorem memUses_single_memory (y : WorkItem) (i : Nat) :
    memUses y (Uses.single_memory i) ↔ y = WorkItem.Memory i := by
  cases y <;> simp [memUses, Uses.single_memory, Uses.empty]

theorem mem_itemsOfUses (y : WorkItem) (u : Uses) :
    y ∈ itemsOfUses u ↔ memUses y u := by
  cases y <;> simp [itemsOfUses, memUses, List.mem_append, List.mem_map]

theorem mergeUsesList_nodup {α : Type} (f : α → Option Uses) (l : List α) :
    ∀ (init r : Uses), mergeUsesList f l init = some r → UsesNodup init → UsesNodup r := by
  induction l with
  | nil =>
    intro init r h hi
    simp only [mergeUsesList, List.foldlM_nil, Option.pure_def, Option.some.injEq] at h
    subst h
    exact hi
  | cons a t ih =>
    intro init r h hi
    simp only [mergeUsesList, List.foldlM_cons] at h
    rcases hfa : f a with _ | u0 <;> rw [hfa] at h
    · simp at h
    · simp only [Option.map_some, Option.bind_eq_bind, Option.some_bind] at h
      exact ih (init.merge u0) r h (merge_nodup _ _)

theorem computeUses_nodup (st : ParseState) (w : WorkItem) (u : Uses)
    (h : computeUses st w = .ok u) : UsesNodup u := by
  cases w with
  | «Type» i =>
    simp only [computeUses] at h
    split at h
    · exact Except.noConfusion h
    · split at h
      · exact Except.noConfusion h
      · cases h; exact merge_nodup _ _
  | Func i =>
    simp only [computeUses] at h
    by_cases hn : i < st.num_imported_functions
    · rw [if_pos hn] at h
      cases h
      simp [UsesNodup, Uses.single_func, Uses.empty]
    · rw [if_neg hn] at h
      rcases hlk : st.defined_funcs[i - st.num_imported_functions]? with _ | func <;>
        rw [hlk] at h
      · exact Except.noConfusion h
      · rcases hdo : mergeUsesList (fun lv => get_valtype_uses lv.2) func.locals
            ((Uses.single_func i).merge (Uses.single_type func.type_idx)) with _ | r1
        · simp only [hdo, Option.bind_eq_bind, Option.none_bind] at h
          simp [liftTodo] at h
        · simp only [hdo, Option.bind_eq_bind, Option.some_bind] at h
          rcases hdo2 : mergeUsesList get_instr_uses func.instructions r1 with _ | r2 <;>
            rw [hdo2] at h
          · simp [liftTodo] at h
          · simp only [liftTodo, Except.ok.injEq] at h
            subst h
            exact mergeUsesList_nodup _ _ _ _ hdo2
              (mergeUsesList_nodup _ _ _ _ hdo (merge_nodup _ _))
  | Table i =>
    simp only [computeUses] at h
    split at h
    · exact Except.noConfusion h
    · split at h
      · exact Except.noConfusion h
      · cases h; exact merge_nodup _ _
  | Global i =>
    simp only [computeUses] at h
    split at h
    · exact Except.noConfusion h
    · split at h
      · exact Except.noConfusion h
      · cases h; exact merge_nodup _ _
  | Memory i =>
    simp only [computeUses] at h
    cases h
    simp [UsesNodup, Uses.single_memory, Uses.empty]
  | Data i => exact Except.noConfusion h
  | Elem i => exact Except.noConfusion h
  | Tag i => exact Except.noConfusion h

theorem disjoint_map_ctor {f g : Nat → WorkItem} (hfg : ∀ a b, f a ≠ g b)
    (l1 l2 : List Nat) : List.Disjoint (l1.map f) (l2.map g) := by
  intro x hx hy
  rcases List.mem_map.mp hx with ⟨a, _, rfl⟩
  rcases List.mem_map.mp hy with ⟨b, _, hb⟩
  exact hfg a b hb.symm

theorem pushNew_nodup (all_uses u : Uses) (hu : UsesNodup u) :
    (pushNew all_uses u).Nodup := by
  obtain ⟨h1, h2, h3, h4, h5, h6, h7, h8⟩ := hu
  unfold pushNew
  have n1 : ((u.live_types.filter (fun i => decide (i ∉ all_uses.live_types))).map WorkItem.Type).Nodup :=
    (h1.filter _).map (fun a b hab => WorkItem.Type.inj hab)
  have n2 : ((u.live_funcs.filter (fun i => decide (i ∉ all_uses.live_funcs))).map WorkItem.Func).Nodup :=
    (h2.filter _).map (fun a b hab => WorkItem.Func.inj hab)
  have n3 : ((u.live_tables.filter (fun i => decide (i ∉ all_uses.live_tables))).map WorkItem.Table).Nodup :=
    (h3.filter _).map (fun a b hab => WorkItem.Table.inj hab)
  have n4 : ((u.live_globals.filter (fun i => decide (i ∉ all_uses.live_globals))).map WorkItem.Global).Nodup :=
    (h4.filter _).map (fun a b hab => WorkItem.Global.inj hab)
  have n5 : ((u.live_memories.filter (fun i => decide (i ∉ all_uses.live_memories))).map WorkItem.Memory).Nodup :=
    (h5.filter _).map (fun a b hab => WorkItem.Memory.inj hab)
  have n6 : ((u.live_datas.filter (fun i => decide (i ∉ all_uses.live_datas))).map WorkItem.Data).Nodup :=
    (h6.filter _).map (fun a b hab => WorkItem.Data.inj hab)
  have n7 : ((u.live_elems.filter (fun i => decide (i ∉ all_uses.live_elems))).map WorkItem.Elem).Nodup :=
    (h7.filter _).map (fun a b hab => WorkItem.Elem.inj hab)
  have n8 : ((u.live_tags.filter (fun i => decide (i ∉ all_uses.live_tags))).map WorkItem.Tag).Nodup :=
    (h8.filter _).map (fun a b hab => WorkItem.Tag.inj hab)
  refine ((((((n1.append n2 ?_).append n3 ?_).append n4 ?_).append n5 ?_).append n6
    ?_).append n7 ?_).append n8 ?_ <;>
  · try simp only [List.disjoint_append_left]
    repeat' apply And.intro
    all_goals exact disjoint_map_ctor (fun a b => by simp) _ _

theorem mem_universeList_seeds (st : ParseState) (seeds : List Nat) (i : Nat)
    (hi : i ∈ seeds) : WorkItem.Func i ∈ universeList st seeds := by
  simp only [universeList, List.mem_append]
  exact Or.inl (Or.inl (Or.inl (Or.inl (List.mem_map.mpr ⟨i, hi, rfl⟩))))

theorem mem_universeList_typeSeg (st : ParseState) (seeds : List Nat) (i : Nat)
    (y : WorkItem) (hlt : i < st.types.length)
    (hy : y ∈ WorkItem.Type i :: okItemsList st (WorkItem.Type i)) :
    y ∈ universeList st seeds := by
  simp only [universeList, List.mem_append]
  exact Or.inl (Or.inl (Or.inl (Or.inr
    (List.mem_flatMap.mpr ⟨i, List.mem_range.mpr hlt, hy⟩))))

theorem mem_universeList_funcSeg (st : ParseState) (seeds : List Nat) (i : Nat)
    (y : WorkItem) (hlt : i < st.num_imported_functions + st.defined_funcs.length)
    (hy : y ∈ WorkItem.Func i :: okItemsList st (WorkItem.Func i)) :
    y ∈ universeList st seeds := by
  simp only [universeList, List.mem_append]
  exact Or.inl (Or.inl (Or.inr
    (List.mem_flatMap.mpr ⟨i, List.mem_range.mpr hlt, hy⟩)))

theorem mem_universeList_tableSeg (st : ParseState) (seeds : List Nat) (i : Nat)
    (y : WorkItem) (hlt : i < st.table_types.length)
    (hy : y ∈ WorkItem.Table i :: okItemsList st (WorkItem.Table i)) :
    y ∈ universeList st seeds := by
  simp only [universeList, List.mem_append]
  exact Or.inl (Or.inr (List.mem_flatMap.mpr ⟨i, List.mem_range.mpr hlt, hy⟩))

theorem mem_universeList_globalSeg (st : ParseState) (seeds : List Nat) (i : Nat)
    (y : WorkItem) (hlt : i < st.global_types.length)
    (hy : y ∈ WorkItem.Global i :: okItemsList st (WorkItem.Global i)) :
    y ∈ universeList st seeds := by
  simp only [universeList, List.mem_append]
  exact Or.inr (List.mem_flatMap.mpr ⟨i, List.mem_range.mpr hlt, hy⟩)

/-- The universe is closed under successful use computations. -/
theorem universeList_closed (st : ParseState) (seeds : List Nat)
    (x : WorkItem) (u : Uses)
    (hx : x ∈ universeList st seeds) (hcu : computeUses st x = .ok u) :
    ∀ y, memUses y u → y ∈ universeList st seeds := by
  intro y hy
  cases x with
  | «Type» i =>
    have hlt : i < st.types.length := by
      by_contra hge
      rw [show computeUses st (WorkItem.Type i) = .error .outOfBounds by
        simp [computeUses, List.getElem?_eq_none (Nat.le_of_not_lt hge)]] at hcu
      exact Except.noConfusion hcu
    refine mem_universeList_typeSeg st seeds i y hlt (List.mem_cons_of_mem _ ?_)
    unfold okItemsList
    rw [hcu]
    exact (mem_itemsOfUses y u).mpr hy
  | Func i =>
    by_cases hn : i < st.num_imported_functions
    · have hu : u = Uses.single_func i := by
        simp only [computeUses, if_pos hn] at hcu
        cases hcu; rfl
      subst hu
      rw [(memUses_single_func y i).mp hy]
      exact hx
    · have hlt : i < st.num_imported_functions + st.defined_funcs.length := by
        by_contra hge
        have hge' : st.defined_funcs.length ≤ i - st.num_imported_functions := by omega
        rw [show computeUses st (WorkItem.Func i) = .error .outOfBounds by
          simp [computeUses, if_neg hn, List.getElem?_eq_none hge']] at hcu
        exact Except.noConfusion hcu
      refine mem_universeList_funcSeg st seeds i y hlt (List.mem_cons_of_mem _ ?_)
      unfold okItemsList
      rw [hcu]
      exact (mem_itemsOfUses y u).mpr hy
  | Table i =>
    have hlt : i < st.table_types.length := by
      by_contra hge
      rw [show computeUses st (WorkItem.Table i) = .error .outOfBounds by
        simp [computeUses, List.getElem?_eq_none (Nat.le_of_not_lt hge)]] at hcu
      exact Except.noConfusion hcu
    refine mem_universeList_tableSeg st seeds i y hlt (List.mem_cons_of_mem _ ?_)
    unfold okItemsList
    rw [hcu]
    exact (mem_itemsOfUses y u).mpr hy
  | Global i =>
    have hlt : i < st.global_types.length := by
      by_contra hge
      rw [show computeUses st (WorkItem.Global i) = .error .outOfBounds by
        simp [computeUses, List.getElem?_eq_none (Nat.le_of_not_lt hge)]] at hcu
      exact Except.noConfusion hcu
    refine mem_universeList_globalSeg st seeds i y hlt (List.mem_cons_of_mem _ ?_)
    unfold okItemsList
    rw [hcu]
    exact (mem_itemsOfUses y u).mpr hy
  | Memory i =>
    have hu : u = Uses.single_memory i := by
      simp only [computeUses] at hcu
      cases hcu; rfl
    subst hu
    rw [(memUses_single_memory y i).mp hy]
    exact hx
  | Data i => exact Except.noConfusion hcu
  | Elem i => exact Except.noConfusion hcu
  | Tag i => exact Except.noConfusion hcu

theorem Reach_subset_universeList (st : ParseState) (seeds : List Nat) :
    ∀ x, Reach st seeds x → x ∈ universeList st seeds := by
  intro x hx
  induction hx with
  | seed i hi => exact mem_universeList_seeds st seeds i hi
  | step a b u hr hcu hb ih => exact universeList_closed st seeds a u ih hcu b hb

/-- Under the precondition that every reachable item's use computation
succeeds, the worklist loop drains its queue: each iteration either
records a fresh universe item as live or shortens the queue, and the
universe is finite. -/
theorem runWorklist_completes (st : ParseState) (seeds : List Nat)
    (hok : ∀ x, Reach st seeds x → ∃ u, computeUses st x = .ok u) :
    ∀ (fuel : Nat) (queue : List WorkItem) (all_uses : Uses),
    (∀ x ∈ queue, Reach st seeds x) →
    (∀ x, memUses x all_uses → Reach st seeds x) →
    queue.length + ((universeFinset st seeds).filter
      (fun x => ¬ memUses x all_uses)).card < fuel →
    ∃ final, runWorklist st fuel queue all_uses = some (.ok final) := by
  intro fuel
  induction fuel with
  | zero =>
    intro queue all_uses _ _ hm
    omega
  | succ m ih =>
    intro queue all_uses hq hall hm
    match queue with
    | [] => exact ⟨all_uses, rfl⟩
    | x :: rest =>
      have hrx : Reach st seeds x := hq x (List.mem_cons_self _ _)
      obtain ⟨u, hcu⟩ := hok x hrx
      have step : runWorklist st (m + 1) (x :: rest) all_uses
          = runWorklist st m (rest ++ pushNew all_uses u) (all_uses.merge u) := by
        simp [runWorklist, hcu]
      rw [step]
      have hparent : x ∈ universeList st seeds := Reach_subset_universeList st seeds x hrx
      have hpushedReach : ∀ y ∈ pushNew all_uses u, Reach st seeds y := by
        intro y hy
        exact Reach.step x y u hrx hcu (pushNew_sound all_uses u y hy).1
      refine ih (rest ++ pushNew all_uses u) (all_uses.merge u) ?_ ?_ ?_
      · intro y hy
        rcases List.mem_append.mp hy with hy | hy
        · exact hq y (List.mem_cons_of_mem _ hy)
        · exact hpushedReach y hy
      · intro y hy
        rcases (memUses_merge y all_uses u).mp hy with hy | hy
        · exact hall y hy
        · exact Reach.step x y u hrx hcu hy
      · -- the measure decreases strictly
        have hnodup : (pushNew all_uses u).Nodup :=
          pushNew_nodup all_uses u (computeUses_nodup st x u hcu)
        set U := universeFinset st seeds with hU
        set S := U.filter (fun z => ¬ memUses z all_uses) with hS
        set S' := U.filter (fun z => ¬ memUses z (all_uses.merge u)) with hS'
        set PF := (pushNew all_uses u).toFinset with hPF
        have hPFcard : PF.card = (pushNew all_uses u).length :=
          List.toFinset_card_of_nodup hnodup
        have hPFsub : PF ⊆ S := by
          intro y hy
          rw [hPF, List.mem_toFinset] at hy
          obtain ⟨hyu, hynot⟩ := pushNew_sound all_uses u y hy
          rw [hS, Finset.mem_filter]
          refine ⟨?_, hynot⟩
          rw [hU, universeFinset, List.mem_toFinset]
          exact universeList_closed st seeds x u hparent hcu y hyu
        have hS'sub : S' ⊆ S \ PF := by
          intro y hy
          rw [hS', Finset.mem_filter] at hy
          obtain ⟨hyU, hynot⟩ := hy
          rw [Finset.mem_sdiff, hS, Finset.mem_filter]
          constructor
          · exact ⟨hyU, fun hmem => hynot ((memUses_merge y all_uses u).mpr (Or.inl hmem))⟩
          · intro hyPF
            rw [hPF, List.mem_toFinset] at hyPF
            exact hynot ((memUses_merge y all_uses u).mpr
              (Or.inr (pushNew_sound all_uses u y hyPF).1))
        have hScard : S'.card ≤ S.card - PF.card := by
          calc S'.card ≤ (S \ PF).card := Finset.card_le_card hS'sub
            _ = S.card - PF.card := Finset.card_sdiff hPFsub
        have hPFle : PF.card ≤ S.card := Finset.card_le_card hPFsub
        have hmr : rest.length + 1 + S.card < m + 1 := by
          simpa using hm
        simp only [List.length_append]
        omega

/-- Claim C10 as amended: provided the user's selection transitively
reaches only items in the type, function, table, global and memory index
spaces AND every reached item's direct-use computation is defined (no
continuation types, all touched indices in range, concrete heap types
module-level), the reachability driver completes normally for some fuel;
conversely, popping any `Data`, `Elem` or `Tag` work item makes the very
next iteration abort through the `todo!()` branches. -/
theorem c10_driver_completion (st : ParseState) (seeds : List Nat)
    (h5 : ∀ x, Reach st seeds x → kind5 x)
    (hok : ∀ x, Reach st seeds x → ∃ u, computeUses st x = .ok u) :
    (∃ fuel final,
      runWorklist st fuel (seeds.map WorkItem.Func) Uses.empty = some (.ok final)) ∧
    (∀ (fuel : Nat) (queue : List WorkItem) (all_uses : Uses) (i : Nat),
      runWorklist st (fuel + 1) (WorkItem.Data i :: queue) all_uses =
        some (.error Abort.unimplemented)) ∧
    (∀ (fuel : Nat) (queue : List WorkItem) (all_uses : Uses) (i : Nat),
      runWorklist st (fuel + 1) (WorkItem.Elem i :: queue) all_uses =
        some (.error Abort.unimplemented)) ∧
    (∀ (fuel : Nat) (queue : List WorkItem) (all_uses : Uses) (i : Nat),
      runWorklist st (fuel + 1) (WorkItem.Tag i :: queue) all_uses =
        some (.error Abort.unimplemented)) := by
  refine ⟨?_, ?_, ?_, ?_⟩
  · refine ⟨(seeds.map WorkItem.Func).length + ((universeFinset st seeds).filter
      (fun x => ¬ memUses x Uses.empty)).card + 1, ?_⟩
    apply runWorklist_completes st seeds hok
    · intro x hx
      rcases List.mem_map.mp hx with ⟨i, hi, rfl⟩
      exact Reach.seed i hi
    · intro x hx
      exact absurd hx (not_memUses_empty x)
    · omega
  · intro fuel queue all_uses i; rfl
  · intro fuel queue all_uses i; rfl
  · intro fuel queue all_uses i; rfl

/-- Claim C10 counterexample (against the claim as stated): on `st10x` the
selection `[0]` transitively reaches only the function item 0 and the type
item 0 — items of the five implemented spaces — yet the driver never
completes: type 0 is a continuation type and its use computation is the
`todo!()` at `get_type_uses`.  The extra definedness precondition of the
amended claim is therefore necessary. -/
theorem c10_counterexample :
    (∀ x, Reach st10x [0] x → kind5 x) ∧
    (∀ (fuel : Nat) (final : Uses),
      runWorklist st10x fuel ([0].map WorkItem.Func) Uses.empty ≠ some (.ok final)) := by
  have hchar : ∀ y, Reach st10x [0] y →
      y = WorkItem.Func 0 ∨ y = WorkItem.Type 0 := by
    intro y hy
    induction hy with
    | seed i hi =>
      left
      have : i = 0 := by simpa using hi
      rw [this]
    | step a b u hr hcu hb ih =>
      rcases ih with rfl | rfl
      · have hu : u = { Uses.empty with live_types := [0], live_funcs := [0] } := by
          rw [show computeUses st10x (WorkItem.Func 0) =
            .ok { Uses.empty with live_types := [0], live_funcs := [0] } from rfl] at hcu
          cases hcu; rfl
        subst hu
        cases b <;> simp [memUses, Uses.empty] at hb
        · right; rw [hb]
        · left; rw [hb]
      · rw [show computeUses st10x (WorkItem.Type 0) =
          .error Abort.unimplemented from rfl] at hcu
        exact Except.noConfusion hcu
  constructor
  · intro x hx
    rcases hchar x hx with rfl | rfl
    · trivial
    · trivial
  · intro fuel final
    match fuel with
    | 0 => simp [runWorklist]
    | 1 =>
      intro h
      rw [show runWorklist st10x 1 ([0].map WorkItem.Func) Uses.empty = none from rfl] at h
      exact Option.noConfusion h
    | n + 2 =>
      intro h
      rw [show runWorklist st10x (n + 2) ([0].map WorkItem.Func) Uses.empty =
        some (.error Abort.unimplemented) from rfl] at h
      simp at h

/-- Characterization of reachability on the concrete module `st10`: the
selection `[0]` reaches exactly function 0 and type 0. -/
theorem reach_st10_char : ∀ y, Reach st10 [0] y →
    y = WorkItem.Func 0 ∨ y = WorkItem.Type 0 := by
  intro y hy
  induction hy with
  | seed i hi =>
    left
    have : i = 0 := by simpa using hi
    rw [this]
  | step a b u hr hcu hb ih =>
    rcases ih with rfl | rfl
    · have hu : u = { Uses.empty with live_types := [0], live_funcs := [0] } := by
        rw [show computeUses st10 (WorkItem.Func 0) =
          .ok { Uses.empty with live_types := [0], live_funcs := [0] } from rfl] at hcu
        cases hcu; rfl
      subst hu
      cases b <;> simp [memUses, Uses.empty] at hb
      · right; rw [hb]
      · left; rw [hb]
    · have hu : u = { Uses.empty with live_types := [0] } := by
        rw [show computeUses st10 (WorkItem.Type 0) =
          .ok { Uses.empty with live_types := [0] } from rfl] at hcu
        cases hcu; rfl
      subst hu
      cases b <;> simp [memUses, Uses.empty] at hb
      right; rw [hb]

/-- Witness for C10 (amended): on the concrete module `st10` with
selection `[0]` both preconditions hold, and the driver completes. -/
theorem c10_driver_completion_witness :
    ∃ fuel final,
      runWorklist st10 fuel ([0].map WorkItem.Func) Uses.empty = some (.ok final) :=
  (c10_driver_completion st10 [0]
    (fun x hx => by rcases reach_st10_char x hx with rfl | rfl <;> trivial)
    (fun x hx => by
      rcases reach_st10_char x hx with rfl | rfl
      · exact ⟨{ Uses.empty with live_types := [0], live_funcs := [0] }, rfl⟩
      · exact ⟨{ Uses.empty with live_types := [0] }, rfl⟩)).1

end WasmIsolate
